import Mathlib

/-!
Shallow embedding of `ifc-import-comparison.py`: a tree of IFC components
(Project → Site → Building → Storey → leaf elements), a comparison report,
and the recursive `check_import` diff.  Dictionaries built by comprehension
(`{s.guid: s for s in ...}`) are modelled as insertion-ordered association
lists with later-wins overwrite, matching CPython dict semantics.
-/

namespace IfcImport

/-- Python `f"{x}"` rendering of an `Optional[str]`: `None` renders as "None". -/
def pyStr : Option String → String
  | none => "None"
  | some s => s

/-- One entry of `ComparisonReport.additions` / `.deletions`
    (the dict `{'guid': .., 'entity_type': .., 'message'?: ..}` built in
    `add_addition` / `add_deletion`, lines 285-295). -/
structure ChangeRecord where
  guid : Option String
  entity_type : String
  message : Option String
deriving DecidableEq, Repr

/-- `ComparisonReport` (lines 280-302): two append-only record lists. -/
structure ComparisonReport where
  additions : List ChangeRecord
  deletions : List ChangeRecord
deriving DecidableEq, Repr

def emptyReport : ComparisonReport := ⟨[], []⟩

def ComparisonReport.add_addition (r : ComparisonReport) (guid : Option String)
    (entity_type : String) (msg : Option String) : ComparisonReport :=
  { r with additions := r.additions ++ [⟨guid, entity_type, msg⟩] }

def ComparisonReport.add_deletion (r : ComparisonReport) (guid : Option String)
    (entity_type : String) (msg : Option String) : ComparisonReport :=
  { r with deletions := r.deletions ++ [⟨guid, entity_type, msg⟩] }

/-- Parent back-reference stored by `Component.__init__` (`self.parent`):
    either Python `None` or a pointer to the parent node, identified here by
    the parent's guid and entity type. -/
inductive ParentPtr where
  | null
  | ptr (guid : Option String) (entity_type : String)
deriving DecidableEq, Repr

/-- A built `PropertySet` node (lines 271-277).  `Component.__init__` stores
    `entity_name`, `guid`, `entity_type` computed from the wrapped entity and
    recursively builds `psets` from the entity's `IsDefinedBy`;
    `_init_properties` returns `None` (the method body is `pass`). -/
inductive PropertySet where
  | mk (name : Option String) (entity_name : Option String) (guid : Option String)
       (entity_type : String) (parent : ParentPtr) (psets : List PropertySet)
       (properties : Option Unit)

/-- The attribute record written by `Component.__init__` (lines 11-18),
    shared by every node class. -/
structure CompData where
  name : Option String
  entity_name : Option String
  guid : Option String
  entity_type : String
  parent : ParentPtr
  psets : List PropertySet

/-- A `Storey` (lines 174-196): leaf element children (`IfcWall` etc. are all
    `class X(Component): pass`, so a leaf carries exactly the `Component`
    attributes). -/
structure Storey where
  base : CompData
  components : List CompData

/-- A `Building` (lines 132-145). -/
structure Building where
  base : CompData
  storeys : List Storey

/-- A `Site` (lines 93-107). -/
structure Site where
  base : CompData
  buildings : List Building

/-- A `Project` (lines 55-73).  The `file` attribute is irrelevant to the
    comparison and omitted. -/
structure Project where
  base : CompData
  sites : List Site

/-! ## Python dict semantics

`{s.guid: s for s in xs}` iterates `xs` in order, a repeated key keeps its
first-insertion position but the value is overwritten (later wins);
`.items()` iterates in that key order. -/

def dictInsert {α : Type} (d : List (Option String × α)) (k : Option String)
    (v : α) : List (Option String × α) :=
  match d with
  | [] => [(k, v)]
  | (k1, v1) :: rest => if k1 = k then (k1, v) :: rest else (k1, v1) :: dictInsert rest k v

def dictOfList {α : Type} (key : α → Option String) (xs : List α) :
    List (Option String × α) :=
  xs.foldl (fun d x => dictInsert d (key x) x) []

def dictGet {α : Type} (d : List (Option String × α)) (k : Option String) :
    Option α :=
  match d with
  | [] => none
  | (k1, v1) :: rest => if k1 = k then some v1 else dictGet rest k

/-! ## The diff -/

/-- `Component.check_import` (lines 44-52): guid mismatch emits a
    deletion for `self.guid` and an addition for `other.guid` (both with
    `self.entity_type`) and returns; otherwise a name mismatch emits a
    deletion/addition pair for `self.guid`. -/
def Component.check_import (self other : CompData) (report : ComparisonReport) :
    ComparisonReport :=
  if self.guid ≠ other.guid then
    (report.add_deletion self.guid self.entity_type none).add_addition
      other.guid self.entity_type none
  else if self.name ≠ other.name then
    (report.add_deletion self.guid self.entity_type none).add_addition
      self.guid self.entity_type none
  else report

/-- `Storey.check_import` (lines 203-218): after the base check, build guid
    maps of both component lists; originals missing from the import give a
    deletion (child's entity type); imports missing from the original give an
    addition; paired components with differing names give a deletion/addition
    pair carrying `"Name : ..."` messages.  No recursion into components. -/
def Storey.check_import (self other : Storey) (report : ComparisonReport) :
    ComparisonReport :=
  let report := Component.check_import self.base other.base report
  let orig_guid_map := dictOfList (fun c => c.guid) self.components
  let imp_guid_map := dictOfList (fun c => c.guid) other.components
  let report := orig_guid_map.foldl (fun report gc =>
    if (dictGet imp_guid_map gc.1).isSome then report
    else report.add_deletion gc.1 gc.2.entity_type none) report
  imp_guid_map.foldl (fun report gc =>
    match dictGet orig_guid_map gc.1 with
    | none => report.add_addition gc.1 gc.2.entity_type none
    | some oc =>
      if oc.name ≠ gc.2.name then
        (report.add_deletion gc.1 gc.2.entity_type
            (some ("Name : " ++ pyStr oc.name))).add_addition gc.1 gc.2.entity_type
            (some ("Name : " ++ pyStr gc.2.name))
      else report) report

/-- Shared shape of `Project.check_import` / `Site.check_import` /
    `Building.check_import` (lines 76-90, 115-129, 157-171): the three
    methods are textually identical except for the child collection, the
    recursive child check, and which node's entity type is recorded for an
    unpaired child (`self.entity_type` at Project level, the child's at
    Site/Building level); those vary as parameters `childCheck`, `delEt`,
    `addEt`. -/
def upperCheck {χ : Type} (key : χ → Option String)
    (childCheck : χ → χ → ComparisonReport → ComparisonReport)
    (delEt addEt : CompData → χ → String)
    (selfBase : CompData) (selfCh : List χ)
    (otherBase : CompData) (otherCh : List χ)
    (report : ComparisonReport) : ComparisonReport :=
  let report := Component.check_import selfBase otherBase report
  let d_orig := dictOfList key selfCh
  let d_imp := dictOfList key otherCh
  let report := d_orig.foldl (fun report gs =>
    match dictGet d_imp gs.1 with
    | some t => childCheck gs.2 t report
    | none => report.add_deletion gs.1 (delEt selfBase gs.2) none) report
  d_imp.foldl (fun report gs =>
    match dictGet d_orig gs.1 with
    | some _ => report
    | none => report.add_addition gs.1 (addEt selfBase gs.2) none) report

/-- `Building.check_import` (lines 157-171): unpaired storeys are recorded
    with the storey's own entity type. -/
def Building.check_import (self other : Building) (report : ComparisonReport) :
    ComparisonReport :=
  upperCheck (fun s => s.base.guid) Storey.check_import
    (fun _ s => s.base.entity_type) (fun _ s => s.base.entity_type)
    self.base self.storeys other.base other.storeys report

/-- `Site.check_import` (lines 115-129): unpaired buildings are recorded with
    the building's own entity type. -/
def Site.check_import (self other : Site) (report : ComparisonReport) :
    ComparisonReport :=
  upperCheck (fun b => b.base.guid) Building.check_import
    (fun _ b => b.base.entity_type) (fun _ b => b.base.entity_type)
    self.base self.buildings other.base other.buildings report

/-- `Project.check_import` (lines 76-90): unpaired sites are recorded with
    `self.entity_type` — the *project's* entity type (lines 86 and 90). -/
def Project.check_import (self other : Project) (report : ComparisonReport) :
    ComparisonReport :=
  upperCheck (fun s => s.base.guid) Site.check_import
    (fun selfBase _ => selfBase.entity_type) (fun selfBase _ => selfBase.entity_type)
    self.base self.sites other.base other.sites report

/-! ## Tree builder

Raw entity data as exposed by the Entity Adapter (the external `ifcopenshell`
layer, modelled from the spec's adapter contract, §6: identity, display name,
a single type tag, decomposition/containment children, property-defining
relations).  `IsDecomposedBy` / `ContainsElements` are lists of relationship
objects, each carrying its `RelatedObjects` / `RelatedElements` list;
`IsDefinedBy` is a list of relationships, each carrying its `is_a` tag and an
optional `RelatingPropertyDefinition`. -/

inductive EntityData where
  | mk (guid : Option String) (name : Option String) (ifc_type : String)
       (isDecomposedBy : List (List EntityData))
       (containsElements : List (List EntityData))
       (isDefinedBy : List (String × Option EntityData))

def EntityData.guid : EntityData → Option String
  | .mk g _ _ _ _ _ => g

def EntityData.name : EntityData → Option String
  | .mk _ n _ _ _ _ => n

def EntityData.ifc_type : EntityData → String
  | .mk _ _ t _ _ _ => t

def EntityData.isDecomposedBy : EntityData → List (List EntityData)
  | .mk _ _ _ d _ _ => d

def EntityData.containsElements : EntityData → List (List EntityData)
  | .mk _ _ _ _ c _ => c

def EntityData.isDefinedBy : EntityData → List (String × Option EntityData)
  | .mk _ _ _ _ _ r => r

/-- `entity.is_a(tag)`, modelled from the spec's adapter contract
    (`type_tag(entity) -> String`, §6): the entity's single type tag matches
    the queried tag. -/
def EntityData.is_a (e : EntityData) (tag : String) : Bool :=
  e.ifc_type == tag

/-- Names defined at module level of `ifc-import-comparison.py`, i.e. the
    keys of `globals()` relevant to `globals().get(comp_type, None)`
    (imports, classes and functions; note the class is named
    `IfcDistribution_Element`, line 231, while the catalogue lists
    `IfcDistributionElement`). -/
def module_globals : List String :=
  ["ABC", "abstractmethod", "Any", "Dict", "List", "Optional", "Set",
   "datetime", "ifcopenshell", "IfcFile", "IfcEntity", "element",
   "Component", "Project", "Site", "Building", "Storey",
   "IfcBeam", "IfcColumn", "IfcCovering", "IfcDistribution_Element",
   "IfcDoor", "IfcMember", "IfcObject", "IfcOpening", "IfcPipe",
   "IfcRailing", "IfcRoof", "IfcSlab", "IfcSpace", "IfcStair", "IfcWall",
   "IfcWindow", "PropertySet", "ComparisonReport", "get_properties", "run"]

/-- `globals().get(comp_type, None)` followed by the truthiness test
    `if component_class:` (lines 190-191): whether a module-level name with
    that exact spelling exists. -/
def globals_get (comp_type : String) : Bool :=
  module_globals.contains comp_type

/-- `Storey.ALLOWED_TYPES` (lines 175-177). -/
def Storey.ALLOWED_TYPES : List String :=
  ["IfcBeam", "IfcColumn", "IfcCovering", "IfcDistributionElement", "IfcDoor",
   "IfcMember", "IfcObject", "IfcOpening", "IfcPipe", "IfcRailing", "IfcRoof",
   "IfcSlab", "IfcSpace", "IfcStair", "IfcWall", "IfcWindow"]

mutual

/-- `PropertySet.__init__` (lines 271-277): `Component.__init__` on the
    definition entity with name `'PropertySet'`, then `properties = None`
    (`_init_properties` is `pass`).  The base constructor recursively builds
    `psets` from the definition's own `IsDefinedBy`, with the node being
    constructed as parent. -/
def buildPropertySet (e : EntityData) (parent : ParentPtr) : PropertySet :=
  match e with
  | .mk g n t _ _ defs =>
    .mk (some "PropertySet") n g t parent
      (initPsetsList defs (ParentPtr.ptr g t)) none

/-- `Component._init_psets` (lines 29-38): keep `IfcRelDefinesByProperties`
    relationships whose `RelatingPropertyDefinition` is truthy, and build a
    `PropertySet` from each definition with `parent=self`. -/
def initPsetsList (defs : List (String × Option EntityData)) (selfPtr : ParentPtr) :
    List PropertySet :=
  match defs with
  | [] => []
  | (tag, defn) :: rest =>
    (if tag = "IfcRelDefinesByProperties" then
      match defn with
      | some d => [buildPropertySet d selfPtr]
      | none => []
    else []) ++ initPsetsList rest selfPtr

end

/-- `Component.__init__` (lines 11-18): store `name` and `parent` as passed,
    compute `entity_name` / `guid` / `entity_type` from the entity, and build
    `psets` with the node being constructed (`self`) as parent. -/
def buildCompData (e : EntityData) (name : Option String) (parent : ParentPtr) :
    CompData :=
  { name := name
    entity_name := e.name
    guid := e.guid
    entity_type := e.ifc_type
    parent := parent
    psets := initPsetsList e.isDefinedBy (ParentPtr.ptr e.guid e.ifc_type) }

/-- The component constructed for one `related_element` of a storey's
    containment relation (inner loops of `_init_storey_elements`,
    lines 188-195): for each catalogue tag the element `is_a`, look the tag up
    in `globals()`; only when a class is found is a component constructed
    (with `name=related_element.Name`, `parent=self`). -/
def storeyElementComponents (selfPtr : ParentPtr) (re : EntityData) :
    List CompData :=
  Storey.ALLOWED_TYPES.filterMap fun comp_type =>
    if re.is_a comp_type then
      if globals_get comp_type then
        some (buildCompData re re.name selfPtr)
      else none
    else none

/-- `Storey._init_storey_elements` (lines 183-196). -/
def initStoreyElements (e : EntityData) (selfPtr : ParentPtr) : List CompData :=
  e.containsElements.flatMap fun related_elements =>
    related_elements.flatMap (storeyElementComponents selfPtr)

/-- `Storey.__init__` (lines 179-181): the received `parent` argument is
    discarded — `super().__init__(entity_instance, name, parent = None)`
    passes a literal `None` (line 180).  Children get `parent=self`. -/
def buildStorey (e : EntityData) (name : Option String) (_parent : ParentPtr) :
    Storey :=
  { base := buildCompData e name ParentPtr.null
    components := initStoreyElements e (ParentPtr.ptr e.guid e.ifc_type) }

/-- `Building._init_storeys` (lines 137-145): decomposition children that are
    `IfcBuildingStorey`, named by the storey entity's `Name`, `parent=self`. -/
def initStoreys (e : EntityData) (selfPtr : ParentPtr) : List Storey :=
  e.isDecomposedBy.flatMap fun related_objects =>
    related_objects.filterMap fun ro =>
      if ro.is_a "IfcBuildingStorey" then some (buildStorey ro ro.name selfPtr)
      else none

/-- `Building.__init__` (lines 133-135): like `Storey.__init__`, the received
    `parent` is discarded (`parent = None` on line 134). -/
def buildBuilding (e : EntityData) (name : Option String) (_parent : ParentPtr) :
    Building :=
  { base := buildCompData e name ParentPtr.null
    storeys := initStoreys e (ParentPtr.ptr e.guid e.ifc_type) }

/-- `Site._init_buildings` (lines 98-107): decomposition children that are
    `IfcBuilding`, with the literal name `'Building'`, `parent=self`. -/
def initBuildings (e : EntityData) (selfPtr : ParentPtr) : List Building :=
  e.isDecomposedBy.flatMap fun related_objects =>
    related_objects.filterMap fun ro =>
      if ro.is_a "IfcBuilding" then
        some (buildBuilding ro (some "Building") selfPtr)
      else none

/-- `Site.__init__` (lines 94-96): the received `parent` is discarded
    (`parent = None` on line 95). -/
def buildSite (e : EntityData) (name : Option String) (_parent : ParentPtr) :
    Site :=
  { base := buildCompData e name ParentPtr.null
    buildings := initBuildings e (ParentPtr.ptr e.guid e.ifc_type) }

/-- `Project._init_sites` (lines 65-73): decomposition children that are
    `IfcSite`, with the literal name `'Site'`, `parent=self`. -/
def initSites (e : EntityData) (selfPtr : ParentPtr) : List Site :=
  e.isDecomposedBy.flatMap fun related_objects =>
    related_objects.filterMap fun ro =>
      if ro.is_a "IfcSite" then some (buildSite ro (some "Site") selfPtr)
      else none

/-- `Project.__init__` (lines 60-63): a project is a root, constructed with
    no parent (`super().__init__(entity_instance, name)`); the `file`
    attribute is omitted. -/
def buildProject (e : EntityData) (name : Option String) : Project :=
  { base := buildCompData e name ParentPtr.null
    sites := initSites e (ParentPtr.ptr e.guid e.ifc_type) }

/-! ## Derived record-list characterizations

The `...Dels` / `...Adds` functions below are not translations of further
source code: they are explicit forms of the record lists each `check_import`
appends, proved equal to the source translation by the `..._records`
theorems later in this file. -/

def compDels (a b : CompData) : List ChangeRecord :=
  if a.guid ≠ b.guid then [⟨a.guid, a.entity_type, none⟩]
  else if a.name ≠ b.name then [⟨a.guid, a.entity_type, none⟩]
  else []

def compAdds (a b : CompData) : List ChangeRecord :=
  if a.guid ≠ b.guid then [⟨b.guid, a.entity_type, none⟩]
  else if a.name ≠ b.name then [⟨a.guid, a.entity_type, none⟩]
  else []

def storeyDels (a b : Storey) : List ChangeRecord :=
  compDels a.base b.base
  ++ (dictOfList (fun c => c.guid) a.components).flatMap (fun gc =>
      if (dictGet (dictOfList (fun c => c.guid) b.components) gc.1).isSome then []
      else [⟨gc.1, gc.2.entity_type, none⟩])
  ++ (dictOfList (fun c => c.guid) b.components).flatMap (fun gc =>
      match dictGet (dictOfList (fun c => c.guid) a.components) gc.1 with
      | none => []
      | some oc =>
        if oc.name ≠ gc.2.name then
          [⟨gc.1, gc.2.entity_type, some ("Name : " ++ pyStr oc.name)⟩]
        else [])

def storeyAdds (a b : Storey) : List ChangeRecord :=
  compAdds a.base b.base
  ++ (dictOfList (fun c => c.guid) b.components).flatMap (fun gc =>
      match dictGet (dictOfList (fun c => c.guid) a.components) gc.1 with
      | none => [⟨gc.1, gc.2.entity_type, none⟩]
      | some oc =>
        if oc.name ≠ gc.2.name then
          [⟨gc.1, gc.2.entity_type, some ("Name : " ++ pyStr gc.2.name)⟩]
        else [])

section UpperRecordDefs

variable {χ : Type} (key : χ → Option String)
variable (childDels childAdds : χ → χ → List ChangeRecord)
variable (delEt addEt : CompData → χ → String)

def upperDels (aB : CompData) (aC : List χ) (bB : CompData) (bC : List χ) :
    List ChangeRecord :=
  compDels aB bB
  ++ (dictOfList key aC).flatMap (fun gs =>
      match dictGet (dictOfList key bC) gs.1 with
      | some t => childDels gs.2 t
      | none => [⟨gs.1, delEt aB gs.2, none⟩])

def upperAdds (aB : CompData) (aC : List χ) (bB : CompData) (bC : List χ) :
    List ChangeRecord :=
  compAdds aB bB
  ++ (dictOfList key aC).flatMap (fun gs =>
      match dictGet (dictOfList key bC) gs.1 with
      | some t => childAdds gs.2 t
      | none => [])
  ++ (dictOfList key bC).flatMap (fun gs =>
      match dictGet (dictOfList key aC) gs.1 with
      | some _ => []
      | none => [⟨gs.1, addEt aB gs.2, none⟩])

end UpperRecordDefs

def buildingDels (a b : Building) : List ChangeRecord :=
  upperDels (fun s : Storey => s.base.guid) storeyDels (fun _ s => s.base.entity_type)
    a.base a.storeys b.base b.storeys

def buildingAdds (a b : Building) : List ChangeRecord :=
  upperAdds (fun s : Storey => s.base.guid) storeyAdds
    (fun _ s => s.base.entity_type) a.base a.storeys b.base b.storeys

def siteDels (a b : Site) : List ChangeRecord :=
  upperDels (fun bd : Building => bd.base.guid) buildingDels (fun _ bd => bd.base.entity_type)
    a.base a.buildings b.base b.buildings

def siteAdds (a b : Site) : List ChangeRecord :=
  upperAdds (fun bd : Building => bd.base.guid) buildingAdds
    (fun _ bd => bd.base.entity_type) a.base a.buildings b.base b.buildings

def projectDels (a b : Project) : List ChangeRecord :=
  upperDels (fun s : Site => s.base.guid) siteDels (fun selfBase _ => selfBase.entity_type)
    a.base a.sites b.base b.sites

def projectAdds (a b : Project) : List ChangeRecord :=
  upperAdds (fun s : Site => s.base.guid) siteAdds
    (fun selfBase _ => selfBase.entity_type) a.base a.sites b.base b.sites

/-! ## Relations used by the algebraic claims -/

/-- Two storeys in "pure addition/deletion" relation: all node attributes
    agree and any component identity present in both identity indexes is
    paired with the *same* component (the trees differ only by components
    present on one side and absent from the other). -/
def StoreyPureDiff (a b : Storey) : Prop :=
  a.base = b.base ∧
  ∀ g x y, dictGet (dictOfList (fun c => c.guid) a.components) g = some x →
    dictGet (dictOfList (fun c => c.guid) b.components) g = some y → x = y

def BuildingPureDiff (a b : Building) : Prop :=
  a.base = b.base ∧
  ∀ g x y, dictGet (dictOfList (fun s => s.base.guid) a.storeys) g = some x →
    dictGet (dictOfList (fun s => s.base.guid) b.storeys) g = some y →
    StoreyPureDiff x y

def SitePureDiff (a b : Site) : Prop :=
  a.base = b.base ∧
  ∀ g x y, dictGet (dictOfList (fun bd => bd.base.guid) a.buildings) g = some x →
    dictGet (dictOfList (fun bd => bd.base.guid) b.buildings) g = some y →
    BuildingPureDiff x y

def ProjectPureDiff (a b : Project) : Prop :=
  a.base = b.base ∧
  ∀ g x y, dictGet (dictOfList (fun s => s.base.guid) a.sites) g = some x →
    dictGet (dictOfList (fun s => s.base.guid) b.sites) g = some y →
    SitePureDiff x y

/-- A permutation of `l1` in which each element may itself be replaced by an
    `R`-related element. -/
def listPermRel {α : Type} (R : α → α → Prop) (l1 l2 : List α) : Prop :=
  ∃ l, List.Forall₂ R l1 l ∧ l.Perm l2

/-- Two storeys equal up to reordering children collections. -/
def StoreyReordered (a b : Storey) : Prop :=
  a.base = b.base ∧ a.components.Perm b.components

def BuildingReordered (a b : Building) : Prop :=
  a.base = b.base ∧ listPermRel StoreyReordered a.storeys b.storeys

def SiteReordered (a b : Site) : Prop :=
  a.base = b.base ∧ listPermRel BuildingReordered a.buildings b.buildings

def ProjectReordered (a b : Project) : Prop :=
  a.base = b.base ∧ listPermRel SiteReordered a.sites b.sites

/-- Sibling identities are unique at every level of the subtree. -/
def StoreyUnique (s : Storey) : Prop :=
  (s.components.map (fun c => c.guid)).Nodup

def BuildingUnique (b : Building) : Prop :=
  (b.storeys.map (fun s => s.base.guid)).Nodup ∧ ∀ s ∈ b.storeys, StoreyUnique s

def SiteUnique (s : Site) : Prop :=
  (s.buildings.map (fun bd => bd.base.guid)).Nodup ∧
  ∀ bd ∈ s.buildings, BuildingUnique bd

def ProjectUnique (p : Project) : Prop :=
  (p.sites.map (fun s => s.base.guid)).Nodup ∧ ∀ s ∈ p.sites, SiteUnique s

/-! ## Concrete inputs used by counterexamples and witnesses -/

def siteS1 : Site :=
  ⟨⟨some "Site", none, some "S1", "IfcSite", ParentPtr.null, []⟩, []⟩

def projP1 : Project :=
  ⟨⟨some "Project", none, some "P1", "IfcProject", ParentPtr.null, []⟩, [siteS1]⟩

def projP2 : Project :=
  ⟨⟨some "Project", none, some "P2", "IfcProject", ParentPtr.null, []⟩, []⟩

/-- Same base attributes as `projP1` but no sites. -/
def projQ : Project :=
  ⟨⟨some "Project", none, some "P1", "IfcProject", ParentPtr.null, []⟩, []⟩

/-- Same as `projP1` except for the display name. -/
def projR : Project :=
  ⟨⟨some "Renamed", none, some "P1", "IfcProject", ParentPtr.null, []⟩, []⟩

def psetPlain : PropertySet :=
  .mk (some "PropertySet") (some "Pset") (some "PS1") "IfcPropertySet"
    ParentPtr.null [] none

/-- Same property set except for a nested property set beneath it (a deep
    structural difference). -/
def psetNested : PropertySet :=
  .mk (some "PropertySet") (some "Pset") (some "PS1") "IfcPropertySet"
    ParentPtr.null
    [.mk (some "PropertySet") (some "Height") (some "PS2") "IfcPropertySet"
      (ParentPtr.ptr (some "PS1") "IfcPropertySet") [] none] none

def wallPlain : CompData :=
  ⟨some "Wall-A", some "Wall-A", some "G1", "IfcWall", ParentPtr.null, [psetPlain]⟩

def wallNested : CompData :=
  ⟨some "Wall-A", some "Wall-A", some "G1", "IfcWall", ParentPtr.null, [psetNested]⟩

/-- Same wall as `wallPlain` except for the display name. -/
def wallRenamed : CompData :=
  ⟨some "Wall-B", some "Wall-B", some "G1", "IfcWall", ParentPtr.null, [psetPlain]⟩

def storeyWithWall (w : CompData) : Storey :=
  ⟨⟨some "S1", some "S1", some "ST1", "IfcBuildingStorey", ParentPtr.null, []⟩, [w]⟩

def dupFirst : CompData :=
  ⟨some "first", none, some "D1", "IfcWall", ParentPtr.null, []⟩

def dupSecond : CompData :=
  ⟨some "second", none, some "D1", "IfcWall", ParentPtr.null, []⟩

def dupOther : CompData :=
  ⟨some "other", none, some "D2", "IfcDoor", ParentPtr.null, []⟩

def siteS2 : Site :=
  ⟨⟨some "Site", none, some "S2", "IfcSite", ParentPtr.null, []⟩, []⟩

def projTwoSites : Project :=
  ⟨⟨some "Project", none, some "P1", "IfcProject", ParentPtr.null, []⟩,
    [siteS1, siteS2]⟩

/-- Same as `projTwoSites` with the sites listed in the opposite order. -/
def projTwoSitesSwapped : Project :=
  ⟨⟨some "Project", none, some "P1", "IfcProject", ParentPtr.null, []⟩,
    [siteS2, siteS1]⟩

def siteEnt : EntityData :=
  .mk (some "S1") (some "SiteName") "IfcSite" [] [] []

def projEnt : EntityData :=
  .mk (some "P1") (some "ProjName") "IfcProject" [[siteEnt]] [] []

def distribEnt : EntityData :=
  .mk (some "DE1") (some "duct") "IfcDistributionElement" [] [] []

/-! ## Dict lemmas -/

theorem dictGet_dictInsert {α : Type} (d : List (Option String × α))
    (k k2 : Option String) (v : α) :
    dictGet (dictInsert d k v) k2 = if k = k2 then some v else dictGet d k2 := by
  induction d with
  | nil => simp [dictInsert, dictGet]
  | cons hd tl ih =>
    obtain ⟨k1, v1⟩ := hd
    by_cases h1 : k1 = k
    · subst h1
      by_cases h2 : k1 = k2 <;> simp [dictInsert, dictGet, h2]
    · by_cases h2 : k1 = k2
      · subst h2
        simp [dictInsert, dictGet, h1, Ne.symm h1]
      · simp [dictInsert, dictGet, h1, h2, ih]

theorem dictGet_foldl {α : Type} (key : α → Option String) (xs : List α)
    (d : List (Option String × α)) (k : Option String) :
    dictGet (xs.foldl (fun d x => dictInsert d (key x) x) d) k
      = xs.foldl (fun acc x => if key x = k then some x else acc) (dictGet d k) := by
  induction xs generalizing d with
  | nil => rfl
  | cons x xs ih => simp [List.foldl, ih, dictGet_dictInsert]

theorem dictGet_dictOfList {α : Type} (key : α → Option String) (xs : List α)
    (k : Option String) :
    dictGet (dictOfList key xs) k
      = xs.foldl (fun acc x => if key x = k then some x else acc) none := by
  simpa [dictOfList, dictGet] using dictGet_foldl key xs [] k

theorem foldl_keep_of_no_key {α : Type} (key : α → Option String) (k : Option String)
    (l : List α) (acc : Option α) (h : ∀ y ∈ l, key y ≠ k) :
    l.foldl (fun acc x => if key x = k then some x else acc) acc = acc := by
  induction l generalizing acc with
  | nil => rfl
  | cons x xs ih =>
    have hx : key x ≠ k := h x (List.mem_cons_self x xs)
    simp only [List.foldl, if_neg hx]
    exact ih acc fun y hy => h y (List.mem_cons_of_mem x hy)

theorem isSome_foldl_update {α : Type} (key : α → Option String) (k : Option String)
    (xs : List α) (acc : Option α) :
    (xs.foldl (fun acc x => if key x = k then some x else acc) acc).isSome
      ↔ (∃ x ∈ xs, key x = k) ∨ acc.isSome := by
  induction xs generalizing acc with
  | nil => simp
  | cons x xs ih =>
    simp only [List.foldl, ih]
    by_cases hx : key x = k
    · simp [hx]
    · simp [hx]

theorem dictGet_dictOfList_isSome {α : Type} (key : α → Option String)
    (xs : List α) (k : Option String) :
    (dictGet (dictOfList key xs) k).isSome ↔ ∃ x ∈ xs, key x = k := by
  rw [dictGet_dictOfList]
  simpa using isSome_foldl_update key k xs none

theorem mem_dictInsert {α : Type} {d : List (Option String × α)}
    {k : Option String} {v : α} {p : Option String × α}
    (h : p ∈ dictInsert d k v) : p = (k, v) ∨ p ∈ d := by
  induction d with
  | nil => simpa [dictInsert] using h
  | cons hd tl ih =>
    obtain ⟨k1, v1⟩ := hd
    by_cases h1 : k1 = k
    · subst h1
      rcases (by simpa [dictInsert] using h : p = (k1, v) ∨ p ∈ tl) with h' | h'
      · exact Or.inl h'
      · exact Or.inr (List.mem_cons_of_mem _ h')
    · rcases (by simpa [dictInsert, h1] using h : p = (k1, v1) ∨ p ∈ dictInsert tl k v)
        with h' | h'
      · exact Or.inr (by simp [h'])
      · rcases ih h' with h'' | h''
        · exact Or.inl h''
        · exact Or.inr (List.mem_cons_of_mem _ h'')

theorem mem_dictOfList {α : Type} (key : α → Option String) (xs : List α)
    {p : Option String × α} (h : p ∈ dictOfList key xs) :
    p.2 ∈ xs ∧ key p.2 = p.1 := by
  suffices H : ∀ (d : List (Option String × α)),
      p ∈ xs.foldl (fun d x => dictInsert d (key x) x) d →
      (p.2 ∈ xs ∧ key p.2 = p.1) ∨ p ∈ d by
    rcases H [] h with h' | h'
    · exact h'
    · simp at h'
  clear h
  induction xs with
  | nil => exact fun d hd => Or.inr hd
  | cons x xs ih =>
    intro d hd
    rcases ih (dictInsert d (key x) x) hd with h' | h'
    · exact Or.inl ⟨List.mem_cons_of_mem x h'.1, h'.2⟩
    · rcases mem_dictInsert h' with h'' | h''
      · subst h''
        exact Or.inl ⟨List.mem_cons_self x xs, rfl⟩
      · exact Or.inr h''

theorem keys_dictInsert {α : Type} (d : List (Option String × α))
    (k : Option String) (v : α) :
    (dictInsert d k v).map Prod.fst
      = if k ∈ d.map Prod.fst then d.map Prod.fst else d.map Prod.fst ++ [k] := by
  induction d with
  | nil => simp [dictInsert]
  | cons hd tl ih =>
    obtain ⟨k1, v1⟩ := hd
    by_cases h1 : k1 = k
    · subst h1
      simp [dictInsert]
    · by_cases h2 : k ∈ tl.map Prod.fst <;>
        simp [dictInsert, h1, Ne.symm h1, h2, ih]

theorem keys_nodup_dictInsert {α : Type} {d : List (Option String × α)}
    (h : (d.map Prod.fst).Nodup) (k : Option String) (v : α) :
    ((dictInsert d k v).map Prod.fst).Nodup := by
  rw [keys_dictInsert]
  by_cases h2 : k ∈ d.map Prod.fst
  · simpa [h2]
  · simpa [h2, List.nodup_append] using h

theorem keys_nodup_dictOfList {α : Type} (key : α → Option String) (xs : List α) :
    ((dictOfList key xs).map Prod.fst).Nodup := by
  suffices H : ∀ (d : List (Option String × α)), (d.map Prod.fst).Nodup →
      ((xs.foldl (fun d x => dictInsert d (key x) x) d).map Prod.fst).Nodup by
    exact H [] (by simp)
  intro d hd
  induction xs generalizing d with
  | nil => exact hd
  | cons x xs ih => exact ih _ (keys_nodup_dictInsert hd _ _)

theorem dictGet_of_mem {α : Type} {d : List (Option String × α)}
    {k : Option String} {v : α} (hnd : (d.map Prod.fst).Nodup)
    (h : (k, v) ∈ d) : dictGet d k = some v := by
  induction d with
  | nil => simp at h
  | cons hd tl ih =>
    obtain ⟨k1, v1⟩ := hd
    rw [List.map_cons] at hnd
    have hnd' := List.nodup_cons.mp hnd
    rcases List.mem_cons.1 h with h' | h'
    · obtain ⟨rfl, rfl⟩ := Prod.mk.inj h'
      simp [dictGet]
    · have hk : k1 ≠ k := by
        rintro rfl
        exact hnd'.1 (List.mem_map.2 ⟨(k1, v), h', rfl⟩)
      simp only [dictGet, if_neg hk]
      exact ih hnd'.2 h'

theorem mem_of_dictGet {α : Type} {d : List (Option String × α)}
    {k : Option String} {v : α} (h : dictGet d k = some v) : (k, v) ∈ d := by
  induction d with
  | nil => simp [dictGet] at h
  | cons hd tl ih =>
    obtain ⟨k1, v1⟩ := hd
    by_cases h1 : k1 = k
    · subst h1
      rw [show dictGet ((k1, v1) :: tl) k1 = some v1 from if_pos rfl] at h
      obtain rfl := Option.some.inj h
      exact List.mem_cons_self _ _
    · rw [show dictGet ((k1, v1) :: tl) k = dictGet tl k from if_neg h1] at h
      exact List.mem_cons_of_mem _ (ih h)

theorem dictInsert_of_not_mem {α : Type} {d : List (Option String × α)}
    {k : Option String} (h : k ∉ d.map Prod.fst) (v : α) :
    dictInsert d k v = d ++ [(k, v)] := by
  induction d with
  | nil => simp [dictInsert]
  | cons hd tl ih =>
    obtain ⟨k1, v1⟩ := hd
    have h1 : k1 ≠ k := fun e => h (by simp [e])
    simp [dictInsert, h1, ih (fun e => h (by simp; tauto))]

theorem dictOfList_of_nodup_keys {α : Type} (key : α → Option String)
    (xs : List α) (h : (xs.map key).Nodup) :
    dictOfList key xs = xs.map fun x => (key x, x) := by
  suffices H : ∀ (d : List (Option String × α)),
      (∀ x ∈ xs, key x ∉ d.map Prod.fst) → (xs.map key).Nodup →
      xs.foldl (fun d x => dictInsert d (key x) x) d
        = d ++ xs.map fun x => (key x, x) by
    simpa using H [] (by simp) h
  clear h
  induction xs with
  | nil => simp
  | cons x xs ih =>
    intro d hdisj hnd
    rw [List.map_cons] at hnd
    have hnd' := List.nodup_cons.mp hnd
    have hx : key x ∉ d.map Prod.fst := hdisj x (List.mem_cons_self x xs)
    simp only [List.foldl, List.map]
    rw [dictInsert_of_not_mem hx]
    rw [ih (d ++ [(key x, x)]) ?_ hnd'.2]
    · simp
    · intro y hy
      simp only [List.map_append, List.mem_append, List.map]
      rintro (hmem | hmem)
      · exact hdisj y (List.mem_cons_of_mem x hy) hmem
      · have hyx : key y = key x := by simpa using hmem
        exact hnd'.1 (hyx ▸ List.mem_map.2 ⟨y, hy, rfl⟩)

/-! ## Characterization of the diff output

Every `check_import` only appends records: the final report is the incoming
report followed by record lists that depend only on the two nodes.  The
`...Dels` / `...Adds` functions below are derived characterizations (not
translations of further source code); the `..._records` theorems prove them
equal to what the source methods emit. -/

theorem foldl_records {α : Type} (l : List α)
    (step : ComparisonReport → α → ComparisonReport)
    (fa fd : α → List ChangeRecord)
    (h : ∀ r x, x ∈ l → step r x = ⟨r.additions ++ fa x, r.deletions ++ fd x⟩) :
    ∀ r, l.foldl step r = ⟨r.additions ++ l.flatMap fa, r.deletions ++ l.flatMap fd⟩ := by
  induction l with
  | nil => intro r; simp
  | cons x xs ih =>
    intro r
    rw [List.foldl_cons, h r x (List.mem_cons_self x xs),
      ih (fun r y hy => h r y (List.mem_cons_of_mem x hy))]
    simp

theorem componentCheck_records (a b : CompData) (r : ComparisonReport) :
    Component.check_import a b r
      = ⟨r.additions ++ compAdds a b, r.deletions ++ compDels a b⟩ := by
  by_cases hg : a.guid = b.guid
  · by_cases hn : a.name = b.name <;>
      simp [Component.check_import, compAdds, compDels, hg, hn,
        ComparisonReport.add_addition, ComparisonReport.add_deletion]
  · simp [Component.check_import, compAdds, compDels, hg,
      ComparisonReport.add_addition, ComparisonReport.add_deletion]

theorem storey_records (a b : Storey) (r : ComparisonReport) :
    Storey.check_import a b r
      = ⟨r.additions ++ storeyAdds a b, r.deletions ++ storeyDels a b⟩ := by
  unfold Storey.check_import
  rw [foldl_records _ _
    (fun gc => match dictGet (dictOfList (fun c => c.guid) a.components) gc.1 with
      | none => [⟨gc.1, gc.2.entity_type, none⟩]
      | some oc =>
        if oc.name ≠ gc.2.name then
          [⟨gc.1, gc.2.entity_type, some ("Name : " ++ pyStr gc.2.name)⟩]
        else [])
    (fun gc => match dictGet (dictOfList (fun c => c.guid) a.components) gc.1 with
      | none => []
      | some oc =>
        if oc.name ≠ gc.2.name then
          [⟨gc.1, gc.2.entity_type, some ("Name : " ++ pyStr oc.name)⟩]
        else []) ?h2]
  case h2 =>
    intro r gc _
    rcases hget : dictGet (dictOfList (fun c => c.guid) a.components) gc.1 with _ | oc
    · simp [hget, ComparisonReport.add_addition]
    · by_cases hn : oc.name = gc.2.name <;>
        simp [hget, hn, ComparisonReport.add_addition, ComparisonReport.add_deletion]
  rw [foldl_records _ _ (fun _ => [])
    (fun gc => if (dictGet (dictOfList (fun c => c.guid) b.components) gc.1).isSome
      then [] else [⟨gc.1, gc.2.entity_type, none⟩]) ?h1]
  case h1 =>
    intro r gc _
    by_cases h : (dictGet (dictOfList (fun c => c.guid) b.components) gc.1).isSome <;>
      simp [h, ComparisonReport.add_deletion]
  rw [componentCheck_records]
  simp [storeyAdds, storeyDels]

section UpperRecords

variable {χ : Type} (key : χ → Option String)
variable (childDels childAdds : χ → χ → List ChangeRecord)
variable (delEt addEt : CompData → χ → String)

theorem upperCheck_records
    (childCheck : χ → χ → ComparisonReport → ComparisonReport)
    (hchild : ∀ s t r, childCheck s t r
      = ⟨r.additions ++ childAdds s t, r.deletions ++ childDels s t⟩)
    (aB : CompData) (aC : List χ) (bB : CompData) (bC : List χ)
    (r : ComparisonReport) :
    upperCheck key childCheck delEt addEt aB aC bB bC r
      = ⟨r.additions ++ upperAdds key childAdds addEt aB aC bB bC,
         r.deletions ++ upperDels key childDels delEt aB aC bB bC⟩ := by
  unfold upperCheck
  rw [foldl_records _ _
    (fun gs => match dictGet (dictOfList key aC) gs.1 with
      | some _ => []
      | none => [⟨gs.1, addEt aB gs.2, none⟩])
    (fun _ => []) ?h2]
  case h2 =>
    intro r gs _
    rcases hget : dictGet (dictOfList key aC) gs.1 with _ | s
    · simp [hget, ComparisonReport.add_addition]
    · simp [hget]
  rw [foldl_records _ _
    (fun gs => match dictGet (dictOfList key bC) gs.1 with
      | some t => childAdds gs.2 t
      | none => [])
    (fun gs => match dictGet (dictOfList key bC) gs.1 with
      | some t => childDels gs.2 t
      | none => [⟨gs.1, delEt aB gs.2, none⟩]) ?h1]
  case h1 =>
    intro r gs _
    rcases hget : dictGet (dictOfList key bC) gs.1 with _ | t
    · simp [hget, ComparisonReport.add_deletion]
    · simp [hget, hchild]
  rw [componentCheck_records]
  simp [upperAdds, upperDels]

end UpperRecords

theorem building_records (a b : Building) (r : ComparisonReport) :
    Building.check_import a b r
      = ⟨r.additions ++ buildingAdds a b, r.deletions ++ buildingDels a b⟩ :=
  upperCheck_records _ storeyDels storeyAdds _ _ Storey.check_import
    storey_records a.base a.storeys b.base b.storeys r

theorem site_records (a b : Site) (r : ComparisonReport) :
    Site.check_import a b r
      = ⟨r.additions ++ siteAdds a b, r.deletions ++ siteDels a b⟩ :=
  upperCheck_records _ buildingDels buildingAdds _ _ Building.check_import
    building_records a.base a.buildings b.base b.buildings r

theorem project_records (a b : Project) (r : ComparisonReport) :
    Project.check_import a b r
      = ⟨r.additions ++ projectAdds a b, r.deletions ++ projectDels a b⟩ :=
  upperCheck_records _ siteDels siteAdds _ _ Site.check_import
    site_records a.base a.sites b.base b.sites r

/-! ## Self-comparison -/

theorem flatMap_nil_of {α β : Type} {l : List α} {f : α → List β}
    (h : ∀ x ∈ l, f x = []) : l.flatMap f = [] := by
  induction l with
  | nil => rfl
  | cons x xs ih =>
    rw [List.flatMap_cons, h x (List.mem_cons_self x xs),
      ih fun y hy => h y (List.mem_cons_of_mem x hy)]
    rfl

theorem compDels_self (a : CompData) : compDels a a = [] := by
  simp [compDels]

theorem compAdds_self (a : CompData) : compAdds a a = [] := by
  simp [compAdds]

theorem dictGet_self_entry {α : Type} (key : α → Option String) (xs : List α)
    {p : Option String × α} (hp : p ∈ dictOfList key xs) :
    dictGet (dictOfList key xs) p.1 = some p.2 := by
  obtain ⟨k, v⟩ := p
  exact dictGet_of_mem (keys_nodup_dictOfList key xs) hp

theorem storeyDels_self (s : Storey) : storeyDels s s = [] := by
  unfold storeyDels
  rw [compDels_self]
  simp only [List.nil_append, List.append_eq_nil]
  constructor
  · rw [List.flatMap_eq_nil_iff]
    intro gc hgc
    simp [dictGet_self_entry _ _ hgc]
  · rw [List.flatMap_eq_nil_iff]
    intro gc hgc
    simp [dictGet_self_entry _ _ hgc]

theorem storeyAdds_self (s : Storey) : storeyAdds s s = [] := by
  unfold storeyAdds
  rw [compAdds_self]
  simp only [List.nil_append]
  rw [List.flatMap_eq_nil_iff]
  intro gc hgc
  simp [dictGet_self_entry _ _ hgc]

theorem upperDels_self {χ : Type} (key : χ → Option String)
    (childDels : χ → χ → List ChangeRecord) (delEt : CompData → χ → String)
    (hcd : ∀ s, childDels s s = []) (aB : CompData) (aC : List χ) :
    upperDels key childDels delEt aB aC aB aC = [] := by
  unfold upperDels
  rw [compDels_self]
  simp only [List.nil_append]
  rw [List.flatMap_eq_nil_iff]
  intro gs hgs
  simp [dictGet_self_entry _ _ hgs, hcd]

theorem upperAdds_self {χ : Type} (key : χ → Option String)
    (childAdds : χ → χ → List ChangeRecord) (addEt : CompData → χ → String)
    (hca : ∀ s, childAdds s s = []) (aB : CompData) (aC : List χ) :
    upperAdds key childAdds addEt aB aC aB aC = [] := by
  unfold upperAdds
  rw [compAdds_self]
  simp only [List.nil_append, List.append_eq_nil]
  constructor
  · rw [List.flatMap_eq_nil_iff]
    intro gs hgs
    simp [dictGet_self_entry _ _ hgs, hca]
  · rw [List.flatMap_eq_nil_iff]
    intro gs hgs
    simp [dictGet_self_entry _ _ hgs]

theorem buildingDels_self (b : Building) : buildingDels b b = [] :=
  upperDels_self _ _ _ storeyDels_self b.base b.storeys

theorem buildingAdds_self (b : Building) : buildingAdds b b = [] :=
  upperAdds_self _ _ _ storeyAdds_self b.base b.storeys

theorem siteDels_self (s : Site) : siteDels s s = [] :=
  upperDels_self _ _ _ buildingDels_self s.base s.buildings

theorem siteAdds_self (s : Site) : siteAdds s s = [] :=
  upperAdds_self _ _ _ buildingAdds_self s.base s.buildings

theorem projectDels_self (p : Project) : projectDels p p = [] :=
  upperDels_self _ _ _ siteDels_self p.base p.sites

theorem projectAdds_self (p : Project) : projectAdds p p = [] :=
  upperAdds_self _ _ _ siteAdds_self p.base p.sites

/-! ## Multiset toolkit -/

theorem coe_flatMap_perm {α β : Type} {l m : List α} (f : α → List β)
    (h : l.Perm m) :
    ((l.flatMap f : List β) : Multiset β) = ↑(m.flatMap f) := by
  calc ((l.flatMap f : List β) : Multiset β)
      = (↑l : Multiset α).bind (fun a => ↑(f a)) := (Multiset.coe_bind l f).symm
    _ = (↑m : Multiset α).bind (fun a => ↑(f a)) := by
        rw [Multiset.coe_eq_coe.mpr h]
    _ = ↑(m.flatMap f) := Multiset.coe_bind m f

theorem flatMap_congr_lists {α β : Type} {l : List α} {f g : α → List β}
    (h : ∀ x ∈ l, f x = g x) : l.flatMap f = l.flatMap g := by
  induction l with
  | nil => rfl
  | cons x xs ih =>
    rw [List.flatMap_cons, List.flatMap_cons, h x (List.mem_cons_self x xs),
      ih fun y hy => h y (List.mem_cons_of_mem x hy)]

theorem coe_flatMap_congr {α β : Type} {l : List α} {f g : α → List β}
    (h : ∀ x ∈ l, (↑(f x) : Multiset β) = ↑(g x)) :
    (↑(l.flatMap f) : Multiset β) = ↑(l.flatMap g) := by
  induction l with
  | nil => rfl
  | cons x xs ih =>
    rw [List.flatMap_cons, List.flatMap_cons]
    have e1 : ((f x ++ xs.flatMap f : List β) : Multiset β)
        = (↑(f x) : Multiset β) + ↑(xs.flatMap f) := rfl
    have e2 : ((g x ++ xs.flatMap g : List β) : Multiset β)
        = (↑(g x) : Multiset β) + ↑(xs.flatMap g) := rfl
    rw [e1, e2, h x (List.mem_cons_self x xs),
      ih fun y hy => h y (List.mem_cons_of_mem x hy)]

theorem flatMap_filter_of_nil {α β : Type} (l : List α) (f : α → List β)
    (p : α → Bool) (h : ∀ x ∈ l, p x = false → f x = []) :
    l.flatMap f = (l.filter p).flatMap f := by
  induction l with
  | nil => rfl
  | cons x xs ih =>
    by_cases hx : p x
    · rw [List.flatMap_cons, List.filter_cons, if_pos hx, List.flatMap_cons,
        ih fun y hy => h y (List.mem_cons_of_mem x hy)]
    · rw [List.flatMap_cons, h x (List.mem_cons_self x xs) (by simpa using hx),
        List.filter_cons, if_neg hx,
        ih fun y hy => h y (List.mem_cons_of_mem x hy)]
      rfl

theorem flatMap_filter_split {α β : Type} (l : List α) (f : α → List β)
    (p : α → Bool) :
    (↑(l.flatMap f) : Multiset β)
      = ↑((l.filter p).flatMap f) + ↑((l.filter (fun x => !p x)).flatMap f) := by
  induction l with
  | nil => simp
  | cons x xs ih =>
    by_cases hx : p x
    · rw [List.flatMap_cons, List.filter_cons, if_pos hx, List.filter_cons,
        if_neg (by simpa using hx), List.flatMap_cons]
      have e1 : ((f x ++ xs.flatMap f : List β) : Multiset β)
          = (↑(f x) : Multiset β) + ↑(xs.flatMap f) := rfl
      have e2 : ((f x ++ (xs.filter p).flatMap f : List β) : Multiset β)
          = (↑(f x) : Multiset β) + ↑((xs.filter p).flatMap f) := rfl
      rw [e1, e2, ih, add_assoc]
    · rw [List.flatMap_cons, List.filter_cons, if_neg hx, List.filter_cons,
        if_pos (by simpa using hx), List.flatMap_cons]
      have e1 : ((f x ++ xs.flatMap f : List β) : Multiset β)
          = (↑(f x) : Multiset β) + ↑(xs.flatMap f) := rfl
      have e2 : ((f x ++ (xs.filter (fun y => !p y)).flatMap f : List β) : Multiset β)
          = (↑(f x) : Multiset β) + ↑((xs.filter (fun y => !p y)).flatMap f) := rfl
      rw [e1, e2, ih, add_left_comm]

/-- The keys paired in both identity indexes are, up to order, the same
    whether collected from the original's index or the candidate's. -/
theorem paired_keys_mem {χ : Type} (key : χ → Option String) (aC bC : List χ)
    (g : Option String) :
    g ∈ ((dictOfList key aC).filter
        (fun gs => (dictGet (dictOfList key bC) gs.1).isSome)).map Prod.fst
      ↔ (dictGet (dictOfList key aC) g).isSome
        ∧ (dictGet (dictOfList key bC) g).isSome := by
  constructor
  · intro h
    obtain ⟨gs, hgs, rfl⟩ := List.mem_map.1 h
    obtain ⟨hmem, hp⟩ := List.mem_filter.1 hgs
    refine ⟨?_, by simpa using hp⟩
    rw [dictGet_self_entry key aC hmem]
    rfl
  · rintro ⟨h1, h2⟩
    obtain ⟨s, hs⟩ := Option.isSome_iff_exists.1 h1
    exact List.mem_map.2 ⟨(g, s),
      List.mem_filter.2 ⟨mem_of_dictGet hs, by simpa using h2⟩, rfl⟩

theorem paired_keys_perm {χ : Type} (key : χ → Option String) (aC bC : List χ) :
    (((dictOfList key aC).filter
        (fun gs => (dictGet (dictOfList key bC) gs.1).isSome)).map Prod.fst).Perm
      (((dictOfList key bC).filter
        (fun gs => (dictGet (dictOfList key aC) gs.1).isSome)).map Prod.fst) := by
  refine (List.perm_ext_iff_of_nodup ?_ ?_).2 ?_
  · exact List.Nodup.sublist
      (List.Sublist.map Prod.fst (List.filter_sublist _))
      (keys_nodup_dictOfList key aC)
  · exact List.Nodup.sublist
      (List.Sublist.map Prod.fst (List.filter_sublist _))
      (keys_nodup_dictOfList key bC)
  · intro g
    rw [paired_keys_mem, paired_keys_mem]
    exact and_comm

/-! ## Orientation: swapping original and candidate (claim C4) -/

theorem upper_swap {χ : Type} (key : χ → Option String)
    (childDels childAdds : χ → χ → List ChangeRecord)
    (delEt addEt : CompData → χ → String)
    (het : ∀ b s, delEt b s = addEt b s)
    (aB : CompData) (aC : List χ) (bB : CompData) (bC : List χ)
    (hbase : aB = bB)
    (hchild : ∀ g s t, dictGet (dictOfList key aC) g = some s →
      dictGet (dictOfList key bC) g = some t →
      (↑(childDels s t) : Multiset ChangeRecord) = ↑(childAdds t s)) :
    (↑(upperDels key childDels delEt aB aC bB bC) : Multiset ChangeRecord)
      = ↑(upperAdds key childAdds addEt bB bC aB aC) := by
  subst hbase
  unfold upperDels upperAdds
  rw [compDels_self, compAdds_self]
  simp only [List.nil_append]
  set dA := dictOfList key aC with hdA
  set dB := dictOfList key bC with hdB
  set fd : Option String × χ → List ChangeRecord := fun gs =>
    match dictGet dB gs.1 with
    | some t => childDels gs.2 t
    | none => [⟨gs.1, delEt aB gs.2, none⟩] with hfd
  set fa1 : Option String × χ → List ChangeRecord := fun gs =>
    match dictGet dA gs.1 with
    | some t => childAdds gs.2 t
    | none => [] with hfa1
  set fa2 : Option String × χ → List ChangeRecord := fun gs =>
    match dictGet dB gs.1 with
    | some _ => []
    | none => [⟨gs.1, addEt aB gs.2, none⟩] with hfa2
  have ecoe : ((dB.flatMap fa1 ++ dA.flatMap fa2 : List ChangeRecord) :
      Multiset ChangeRecord) = ↑(dB.flatMap fa1) + ↑(dA.flatMap fa2) := rfl
  rw [ecoe]
  set p : Option String × χ → Bool := fun gs => (dictGet dB gs.1).isSome with hp
  set q : Option String × χ → Bool := fun gs => (dictGet dA gs.1).isSome with hq
  rw [flatMap_filter_split dA fd p]
  have hb1 : dB.flatMap fa1 = (dB.filter q).flatMap fa1 := by
    apply flatMap_filter_of_nil
    intro gs hgs hqs
    have : dictGet dA gs.1 = none := by
      cases hget : dictGet dA gs.1 with
      | none => rfl
      | some s =>
        rw [hq] at hqs
        simp only [hget] at hqs
        cases hqs
    simp [hfa1, this]
  have hb2 : dA.flatMap fa2 = (dA.filter (fun gs => !p gs)).flatMap fa2 := by
    apply flatMap_filter_of_nil
    intro gs hgs hps
    have hps' : p gs = true := by simpa using hps
    obtain ⟨t, ht⟩ := Option.isSome_iff_exists.1 (by simpa [hp] using hps')
    simp [hfa2, ht]
  have hunpaired : (dA.filter (fun gs => !p gs)).flatMap fd
      = (dA.filter (fun gs => !p gs)).flatMap fa2 := by
    apply flatMap_congr_lists
    intro gs hgs
    obtain ⟨hmem, hnp⟩ := List.mem_filter.1 hgs
    have hnone : dictGet dB gs.1 = none := by
      cases hget : dictGet dB gs.1 with
      | none => rfl
      | some t => simp [hp, hget] at hnp
    simp [hfd, hfa2, hnone, het]
  have hpaired : (↑((dA.filter p).flatMap fd) : Multiset ChangeRecord)
      = ↑((dB.filter q).flatMap fa1) := by
    set G : Option String → List ChangeRecord := fun g =>
      match dictGet dA g, dictGet dB g with
      | some s, some t => childDels s t
      | _, _ => [] with hG
    have ha : (dA.filter p).flatMap fd = ((dA.filter p).map Prod.fst).flatMap G := by
      rw [List.flatMap_map]
      apply flatMap_congr_lists
      intro gs hgs
      obtain ⟨hmem, hps⟩ := List.mem_filter.1 hgs
      have h1 : dictGet dA gs.1 = some gs.2 := dictGet_self_entry key aC hmem
      obtain ⟨t, ht⟩ := Option.isSome_iff_exists.1 (by simpa [hp] using hps)
      simp [hfd, hG, h1, ht]
    have hb : (↑((dB.filter q).flatMap fa1) : Multiset ChangeRecord)
        = ↑(((dB.filter q).map Prod.fst).flatMap G) := by
      rw [List.flatMap_map]
      apply coe_flatMap_congr
      intro gs hgs
      obtain ⟨hmem, hqs⟩ := List.mem_filter.1 hgs
      have h2 : dictGet dB gs.1 = some gs.2 := dictGet_self_entry key bC hmem
      obtain ⟨s, hs⟩ := Option.isSome_iff_exists.1 (by simpa [hq] using hqs)
      have := hchild gs.1 s gs.2 hs h2
      simp only [hfa1, hG, hs, h2]
      exact this.symm
    rw [ha, hb]
    exact coe_flatMap_perm G (paired_keys_perm key aC bC)
  rw [hb1, hb2, ← hunpaired, hpaired, add_comm]

theorem StoreyPureDiff_symm {a b : Storey} (h : StoreyPureDiff a b) :
    StoreyPureDiff b a :=
  ⟨h.1.symm, fun g x y hx hy => (h.2 g y x hy hx).symm⟩

theorem BuildingPureDiff_symm {a b : Building} (h : BuildingPureDiff a b) :
    BuildingPureDiff b a :=
  ⟨h.1.symm, fun g x y hx hy => StoreyPureDiff_symm (h.2 g y x hy hx)⟩

theorem SitePureDiff_symm {a b : Site} (h : SitePureDiff a b) :
    SitePureDiff b a :=
  ⟨h.1.symm, fun g x y hx hy => BuildingPureDiff_symm (h.2 g y x hy hx)⟩

theorem ProjectPureDiff_symm {a b : Project} (h : ProjectPureDiff a b) :
    ProjectPureDiff b a :=
  ⟨h.1.symm, fun g x y hx hy => SitePureDiff_symm (h.2 g y x hy hx)⟩

theorem storey_swap (a b : Storey) (h : StoreyPureDiff a b) :
    (↑(storeyDels a b) : Multiset ChangeRecord) = ↑(storeyAdds b a) := by
  obtain ⟨hbase, hpair⟩ := h
  unfold storeyDels storeyAdds
  rw [hbase, compDels_self, compAdds_self]
  simp only [List.nil_append]
  set dA := dictOfList (fun c => c.guid) a.components with hdA
  set dB := dictOfList (fun c => c.guid) b.components with hdB
  have hflat2 : dB.flatMap (fun gc =>
      match dictGet dA gc.1 with
      | none => ([] : List ChangeRecord)
      | some oc =>
        if oc.name ≠ gc.2.name then
          [ChangeRecord.mk gc.1 gc.2.entity_type
            (some ("Name : " ++ pyStr oc.name))]
        else []) = [] := by
    apply flatMap_nil_of
    intro gc hgc
    have h2 : dictGet dB gc.1 = some gc.2 := dictGet_self_entry _ _ hgc
    cases hget : dictGet dA gc.1 with
    | none => rfl
    | some oc =>
      have : oc = gc.2 := hpair gc.1 oc gc.2 hget h2
      simp [this]
  rw [hflat2, List.append_nil]
  apply congrArg
  apply flatMap_congr_lists
  intro gc hgc
  have h1 : dictGet dA gc.1 = some gc.2 := dictGet_self_entry _ _ hgc
  cases hget : dictGet dB gc.1 with
  | none => simp [hget]
  | some oc =>
    have : gc.2 = oc := hpair gc.1 gc.2 oc h1 hget
    simp [hget, this]

theorem building_swap (a b : Building) (h : BuildingPureDiff a b) :
    (↑(buildingDels a b) : Multiset ChangeRecord) = ↑(buildingAdds b a) :=
  upper_swap _ storeyDels storeyAdds _ _ (fun _ _ => rfl)
    a.base a.storeys b.base b.storeys h.1
    (fun g s t h1 h2 => storey_swap s t (h.2 g s t h1 h2))

theorem site_swap (a b : Site) (h : SitePureDiff a b) :
    (↑(siteDels a b) : Multiset ChangeRecord) = ↑(siteAdds b a) :=
  upper_swap _ buildingDels buildingAdds _ _ (fun _ _ => rfl)
    a.base a.buildings b.base b.buildings h.1
    (fun g s t h1 h2 => building_swap s t (h.2 g s t h1 h2))

theorem project_swap (a b : Project) (h : ProjectPureDiff a b) :
    (↑(projectDels a b) : Multiset ChangeRecord) = ↑(projectAdds b a) :=
  upper_swap _ siteDels siteAdds _ _ (fun _ _ => rfl)
    a.base a.sites b.base b.sites h.1
    (fun g s t h1 h2 => site_swap s t (h.2 g s t h1 h2))

/-! ## Order independence machinery (claim C9) -/

theorem forall2_mem_left {α : Type} {R : α → α → Prop} {l m : List α}
    (h : List.Forall₂ R l m) {x : α} (hx : x ∈ l) : ∃ y ∈ m, R x y := by
  induction h with
  | nil => simp at hx
  | cons hr _ ih =>
    rcases List.mem_cons.1 hx with rfl | hx2
    · exact ⟨_, List.mem_cons_self _ _, hr⟩
    · obtain ⟨y, hy, hry⟩ := ih hx2
      exact ⟨y, List.mem_cons_of_mem _ hy, hry⟩

theorem forall2_mem_right {α : Type} {R : α → α → Prop} {l m : List α}
    (h : List.Forall₂ R l m) {y : α} (hy : y ∈ m) : ∃ x ∈ l, R x y := by
  induction h with
  | nil => simp at hy
  | cons hr _ ih =>
    rcases List.mem_cons.1 hy with rfl | hy2
    · exact ⟨_, List.mem_cons_self _ _, hr⟩
    · obtain ⟨x, hx, hrx⟩ := ih hy2
      exact ⟨x, List.mem_cons_of_mem _ hx, hrx⟩

theorem forall2_map_eq {α : Type} {R : α → α → Prop} {key : α → Option String}
    (hkey : ∀ x y, R x y → key x = key y) {l m : List α}
    (h : List.Forall₂ R l m) : l.map key = m.map key := by
  induction h with
  | nil => rfl
  | cons hr _ ih => simp [List.map_cons, hkey _ _ hr, ih]

theorem listPermRel_key_perm {α : Type} {R : α → α → Prop}
    {key : α → Option String} (hkey : ∀ x y, R x y → key x = key y)
    {l l2 : List α} (h : listPermRel R l l2) :
    (l.map key).Perm (l2.map key) := by
  obtain ⟨mid, hf, hp⟩ := h
  rw [forall2_map_eq hkey hf]
  exact hp.map key

/-- How the two identity-index lookups of related (reordered) sibling lists
    relate at any key: both miss, or both hit related values. -/
theorem dictGet_rel {α : Type} (key : α → Option String) (R : α → α → Prop)
    (hkey : ∀ x y, R x y → key x = key y) (l l2 : List α)
    (hnd : (l.map key).Nodup) (hrel : listPermRel R l l2) (g : Option String) :
    (dictGet (dictOfList key l) g = none ∧ dictGet (dictOfList key l2) g = none)
    ∨ ∃ s s2, dictGet (dictOfList key l) g = some s
        ∧ dictGet (dictOfList key l2) g = some s2 ∧ R s s2 ∧ s ∈ l ∧ s2 ∈ l2 := by
  have hnd2 : (l2.map key).Nodup :=
    ((listPermRel_key_perm hkey hrel).nodup_iff).1 hnd
  obtain ⟨mid, hf, hp⟩ := hrel
  cases hget : dictGet (dictOfList key l) g with
  | some s =>
    obtain ⟨hsl, hks⟩ := mem_dictOfList key l (mem_of_dictGet hget)
    obtain ⟨y, hymid, hr⟩ := forall2_mem_left hf hsl
    have hyl2 : y ∈ l2 := hp.mem_iff.1 hymid
    have hky : key y = g := by rw [← hkey s y hr]; exact hks
    have hnodups : ((l2.map fun x => (key x, x)).map Prod.fst).Nodup := by
      simpa [List.map_map, Function.comp_def] using hnd2
    have hgety : dictGet (dictOfList key l2) g = some y := by
      rw [dictOfList_of_nodup_keys key l2 hnd2, ← hky]
      exact dictGet_of_mem hnodups (List.mem_map.2 ⟨y, hyl2, rfl⟩)
    exact Or.inr ⟨s, y, rfl, hgety, hr, hsl, hyl2⟩
  | none =>
    refine Or.inl ⟨rfl, ?_⟩
    cases hget2 : dictGet (dictOfList key l2) g with
    | none => rfl
    | some s2 =>
      exfalso
      obtain ⟨hs2, hk2⟩ := mem_dictOfList key l2 (mem_of_dictGet hget2)
      obtain ⟨x, hxl, hrx⟩ := forall2_mem_right hf (hp.mem_iff.2 hs2)
      have hkx : key x = g := by rw [hkey x s2 hrx]; exact hk2
      have hsome : (dictGet (dictOfList key l) g).isSome :=
        (dictGet_dictOfList_isSome key l g).2 ⟨x, hxl, hkx⟩
      rw [hget] at hsome
      simp at hsome

theorem flatMap_rel_forall2 {α β : Type} {R : α → α → Prop} {l m : List α}
    (h : List.Forall₂ R l m) (f g : α → List β)
    (hfg : ∀ x y, R x y → x ∈ l → y ∈ m → (↑(f x) : Multiset β) = ↑(g y)) :
    (↑(l.flatMap f) : Multiset β) = ↑(m.flatMap g) := by
  induction h with
  | nil => rfl
  | @cons x y l2 m2 hr hrest ih =>
    rw [List.flatMap_cons, List.flatMap_cons]
    have e1 : ((f x ++ l2.flatMap f : List β) : Multiset β)
        = (↑(f x) : Multiset β) + ↑(l2.flatMap f) := rfl
    have e2 : ((g y ++ m2.flatMap g : List β) : Multiset β)
        = (↑(g y) : Multiset β) + ↑(m2.flatMap g) := rfl
    rw [e1, e2,
      hfg x y hr (List.mem_cons_self x l2) (List.mem_cons_self y m2),
      ih fun x2 y2 hr2 hx2 hy2 =>
        hfg x2 y2 hr2 (List.mem_cons_of_mem x hx2) (List.mem_cons_of_mem y hy2)]

/-- Replacing a sibling list by a reordered, pointwise-related sibling list
    does not change the multiset obtained by flat-mapping over its identity
    index, provided the map respects the relation. -/
theorem dict_flatMap_rel {α β : Type} (key : α → Option String)
    (R : α → α → Prop) (hkey : ∀ x y, R x y → key x = key y)
    (l l2 : List α) (hnd : (l.map key).Nodup) (hrel : listPermRel R l l2)
    (f f2 : Option String × α → List β)
    (hf : ∀ x y, R x y → x ∈ l → y ∈ l2 →
      (↑(f (key x, x)) : Multiset β) = ↑(f2 (key y, y))) :
    (↑((dictOfList key l).flatMap f) : Multiset β)
      = ↑((dictOfList key l2).flatMap f2) := by
  have hnd2 : (l2.map key).Nodup :=
    ((listPermRel_key_perm hkey hrel).nodup_iff).1 hnd
  obtain ⟨mid, hforall, hperm⟩ := hrel
  rw [dictOfList_of_nodup_keys key l hnd, dictOfList_of_nodup_keys key l2 hnd2,
    List.flatMap_map, List.flatMap_map]
  rw [← coe_flatMap_perm (fun y => f2 (key y, y)) hperm]
  exact flatMap_rel_forall2 hforall _ _
    (fun x y hr hx hy => hf x y hr hx (hperm.mem_iff.1 hy))

theorem upper_reorder {χ : Type} (key : χ → Option String)
    (childDels childAdds : χ → χ → List ChangeRecord)
    (delEt addEt : CompData → χ → String)
    (R : χ → χ → Prop) (U : χ → Prop)
    (hkey : ∀ x y, R x y → key x = key y)
    (hdelEtR : ∀ c x y, R x y → delEt c x = delEt c y)
    (haddEtR : ∀ c x y, R x y → addEt c x = addEt c y)
    (hchildR : ∀ s s2 t t2, R s s2 → R t t2 → U s → U t →
      ((↑(childDels s t) : Multiset ChangeRecord) = ↑(childDels s2 t2))
      ∧ ((↑(childAdds s t) : Multiset ChangeRecord) = ↑(childAdds s2 t2)))
    (aB bB : CompData) (aC aC2 bC bC2 : List χ)
    (hUa : (aC.map key).Nodup) (hUb : (bC.map key).Nodup)
    (hUac : ∀ s ∈ aC, U s) (hUbc : ∀ t ∈ bC, U t)
    (hra : listPermRel R aC aC2) (hrb : listPermRel R bC bC2) :
    ((↑(upperDels key childDels delEt aB aC bB bC) : Multiset ChangeRecord)
      = ↑(upperDels key childDels delEt aB aC2 bB bC2))
    ∧ ((↑(upperAdds key childAdds addEt aB aC bB bC) : Multiset ChangeRecord)
      = ↑(upperAdds key childAdds addEt aB aC2 bB bC2)) := by
  have hkeyEq : ∀ x y, R x y → key x = key y := hkey
  constructor
  · unfold upperDels
    have e1 : ∀ (x y : List ChangeRecord),
        ((x ++ y : List ChangeRecord) : Multiset ChangeRecord) = ↑x + ↑y :=
      fun _ _ => rfl
    rw [e1, e1]
    congr 1
    apply dict_flatMap_rel key R hkeyEq aC aC2 hUa hra
    intro x y hr hx hy
    have hk : key x = key y := hkeyEq x y hr
    rcases dictGet_rel key R hkeyEq bC bC2 hUb hrb (key x)
      with ⟨h1, h2⟩ | ⟨t, t2, h1, h2, hrt, htb, _⟩
    · rw [← hk] at *
      simp only [h1, h2]
      rw [hk, hdelEtR aB x y hr]
    · rw [← hk] at *
      simp only [h1, h2]
      exact (hchildR x y t t2 hr hrt (hUac x hx) (hUbc t htb)).1
  · unfold upperAdds
    have e1 : ∀ (x y : List ChangeRecord),
        ((x ++ y : List ChangeRecord) : Multiset ChangeRecord) = ↑x + ↑y :=
      fun _ _ => rfl
    rw [e1, e1, e1, e1]
    congr 1
    · congr 1
      apply dict_flatMap_rel key R hkeyEq aC aC2 hUa hra
      intro x y hr hx hy
      have hk : key x = key y := hkeyEq x y hr
      rcases dictGet_rel key R hkeyEq bC bC2 hUb hrb (key x)
        with ⟨h1, h2⟩ | ⟨t, t2, h1, h2, hrt, htb, _⟩
      · rw [← hk] at *
        simp only [h1, h2]
      · rw [← hk] at *
        simp only [h1, h2]
        exact (hchildR x y t t2 hr hrt (hUac x hx) (hUbc t htb)).2
    · apply dict_flatMap_rel key R hkeyEq bC bC2 hUb hrb
      intro x y hr hx hy
      have hk : key x = key y := hkeyEq x y hr
      rcases dictGet_rel key R hkeyEq aC aC2 hUa hra (key x)
        with ⟨h1, h2⟩ | ⟨s, s2, h1, h2, hrs, _, _⟩
      · rw [← hk] at *
        simp only [h1, h2]
        rw [hk, haddEtR aB x y hr]
      · rw [← hk] at *
        simp only [h1, h2]

theorem storey_reorder (a a2 b b2 : Storey)
    (hra : StoreyReordered a a2) (hrb : StoreyReordered b b2)
    (hUa : StoreyUnique a) (hUb : StoreyUnique b) :
    ((↑(storeyDels a b) : Multiset ChangeRecord) = ↑(storeyDels a2 b2))
    ∧ ((↑(storeyAdds a b) : Multiset ChangeRecord) = ↑(storeyAdds a2 b2)) := by
  obtain ⟨hba, hpa⟩ := hra
  obtain ⟨hbb, hpb⟩ := hrb
  have hkeyEq : ∀ x y : CompData, x = y → x.guid = y.guid :=
    fun x y h => by rw [h]
  have hrel_a : listPermRel (fun x y : CompData => x = y)
      a.components a2.components :=
    ⟨a.components, List.forall₂_same.mpr fun _ _ => rfl, hpa⟩
  have hrel_b : listPermRel (fun x y : CompData => x = y)
      b.components b2.components :=
    ⟨b.components, List.forall₂_same.mpr fun _ _ => rfl, hpb⟩
  have e1 : ∀ (x y : List ChangeRecord),
      ((x ++ y : List ChangeRecord) : Multiset ChangeRecord) = ↑x + ↑y :=
    fun _ _ => rfl
  constructor
  · unfold storeyDels
    rw [hba, hbb, e1, e1, e1, e1]
    congr 1
    · congr 1
      apply dict_flatMap_rel _ _ hkeyEq a.components a2.components hUa hrel_a
      intro x y hr hx hy
      subst hr
      rcases dictGet_rel _ _ hkeyEq b.components b2.components hUb hrel_b x.guid
        with ⟨h1, h2⟩ | ⟨t, t2, h1, h2, hrt, _, _⟩
      · simp only [h1, h2]
      · subst hrt
        simp only [h1, h2]
    · apply dict_flatMap_rel _ _ hkeyEq b.components b2.components hUb hrel_b
      intro x y hr hx hy
      subst hr
      rcases dictGet_rel _ _ hkeyEq a.components a2.components hUa hrel_a x.guid
        with ⟨h1, h2⟩ | ⟨s, s2, h1, h2, hrs, _, _⟩
      · simp only [h1, h2]
      · subst hrs
        simp only [h1, h2]
  · unfold storeyAdds
    rw [hba, hbb, e1, e1]
    congr 1
    apply dict_flatMap_rel _ _ hkeyEq b.components b2.components hUb hrel_b
    intro x y hr hx hy
    subst hr
    rcases dictGet_rel _ _ hkeyEq a.components a2.components hUa hrel_a x.guid
      with ⟨h1, h2⟩ | ⟨s, s2, h1, h2, hrs, _, _⟩
    · simp only [h1, h2]
    · subst hrs
      simp only [h1, h2]

theorem building_reorder (a a2 b b2 : Building)
    (hra : BuildingReordered a a2) (hrb : BuildingReordered b b2)
    (hUa : BuildingUnique a) (hUb : BuildingUnique b) :
    ((↑(buildingDels a b) : Multiset ChangeRecord) = ↑(buildingDels a2 b2))
    ∧ ((↑(buildingAdds a b) : Multiset ChangeRecord) = ↑(buildingAdds a2 b2)) := by
  unfold buildingDels buildingAdds
  rw [← hra.1, ← hrb.1]
  exact upper_reorder _ storeyDels storeyAdds _ _ StoreyReordered StoreyUnique
    (fun x y h => by rw [h.1]) (fun c x y h => by rw [h.1])
    (fun c x y h => by rw [h.1])
    (fun s s2 t t2 hs ht hus hut => storey_reorder s s2 t t2 hs ht hus hut)
    a.base b.base a.storeys a2.storeys b.storeys b2.storeys
    hUa.1 hUb.1 hUa.2 hUb.2 hra.2 hrb.2

theorem site_reorder (a a2 b b2 : Site)
    (hra : SiteReordered a a2) (hrb : SiteReordered b b2)
    (hUa : SiteUnique a) (hUb : SiteUnique b) :
    ((↑(siteDels a b) : Multiset ChangeRecord) = ↑(siteDels a2 b2))
    ∧ ((↑(siteAdds a b) : Multiset ChangeRecord) = ↑(siteAdds a2 b2)) := by
  unfold siteDels siteAdds
  rw [← hra.1, ← hrb.1]
  exact upper_reorder _ buildingDels buildingAdds _ _ BuildingReordered
    BuildingUnique
    (fun x y h => by rw [h.1]) (fun c x y h => by rw [h.1])
    (fun c x y h => by rw [h.1])
    (fun s s2 t t2 hs ht hus hut => building_reorder s s2 t t2 hs ht hus hut)
    a.base b.base a.buildings a2.buildings b.buildings b2.buildings
    hUa.1 hUb.1 hUa.2 hUb.2 hra.2 hrb.2

theorem project_reorder (a a2 b b2 : Project)
    (hra : ProjectReordered a a2) (hrb : ProjectReordered b b2)
    (hUa : ProjectUnique a) (hUb : ProjectUnique b) :
    ((↑(projectDels a b) : Multiset ChangeRecord) = ↑(projectDels a2 b2))
    ∧ ((↑(projectAdds a b) : Multiset ChangeRecord) = ↑(projectAdds a2 b2)) := by
  unfold projectDels projectAdds
  rw [← hra.1, ← hrb.1]
  exact upper_reorder _ siteDels siteAdds
    (fun selfBase _ => selfBase.entity_type) (fun selfBase _ => selfBase.entity_type)
    SiteReordered SiteUnique
    (fun x y h => by rw [h.1]) (fun c x y h => rfl) (fun c x y h => rfl)
    (fun s s2 t t2 hs ht hus hut => site_reorder s s2 t t2 hs ht hus hut)
    a.base b.base a.sites a2.sites b.sites b2.sites
    hUa.1 hUb.1 hUa.2 hUb.2 hra.2 hrb.2

theorem listPermRel_refl {α : Type} {R : α → α → Prop}
    (hR : ∀ x, R x x) (l : List α) : listPermRel R l l :=
  ⟨l, List.forall₂_same.mpr fun x _ => hR x, List.Perm.refl l⟩

theorem StoreyReordered_refl (s : Storey) : StoreyReordered s s :=
  ⟨rfl, List.Perm.refl _⟩

theorem BuildingReordered_refl (b : Building) : BuildingReordered b b :=
  ⟨rfl, listPermRel_refl StoreyReordered_refl _⟩

theorem SiteReordered_refl (s : Site) : SiteReordered s s :=
  ⟨rfl, listPermRel_refl BuildingReordered_refl _⟩

theorem ProjectReordered_refl (p : Project) : ProjectReordered p p :=
  ⟨rfl, listPermRel_refl SiteReordered_refl _⟩

/-! ## Membership of unpaired-child records -/

theorem mem_upperDels_unpaired {χ : Type} (key : χ → Option String)
    (childDels : χ → χ → List ChangeRecord) (delEt : CompData → χ → String)
    (aB : CompData) (aC : List χ) (bB : CompData) (bC : List χ)
    (g : Option String) (s : χ)
    (h1 : dictGet (dictOfList key aC) g = some s)
    (h2 : dictGet (dictOfList key bC) g = none) :
    (⟨g, delEt aB s, none⟩ : ChangeRecord)
      ∈ upperDels key childDels delEt aB aC bB bC := by
  unfold upperDels
  refine List.mem_append_right _ (List.mem_flatMap.2 ⟨(g, s), mem_of_dictGet h1, ?_⟩)
  simp [h2]

theorem mem_upperAdds_unpaired {χ : Type} (key : χ → Option String)
    (childAdds : χ → χ → List ChangeRecord) (addEt : CompData → χ → String)
    (aB : CompData) (aC : List χ) (bB : CompData) (bC : List χ)
    (g : Option String) (t : χ)
    (h1 : dictGet (dictOfList key bC) g = some t)
    (h2 : dictGet (dictOfList key aC) g = none) :
    (⟨g, addEt aB t, none⟩ : ChangeRecord)
      ∈ upperAdds key childAdds addEt aB aC bB bC := by
  unfold upperAdds
  refine List.mem_append_right _
    (List.mem_flatMap.2 ⟨(g, t), mem_of_dictGet h1, ?_⟩)
  simp [h2]

theorem mem_storeyDels_unpaired (a b : Storey) (g : Option String) (c : CompData)
    (h1 : dictGet (dictOfList (fun c => c.guid) a.components) g = some c)
    (h2 : dictGet (dictOfList (fun c => c.guid) b.components) g = none) :
    (⟨g, c.entity_type, none⟩ : ChangeRecord) ∈ storeyDels a b := by
  unfold storeyDels
  refine List.mem_append_left _ (List.mem_append_right _
    (List.mem_flatMap.2 ⟨(g, c), mem_of_dictGet h1, ?_⟩))
  simp [h2]

theorem mem_storeyAdds_unpaired (a b : Storey) (g : Option String) (c : CompData)
    (h1 : dictGet (dictOfList (fun c => c.guid) b.components) g = some c)
    (h2 : dictGet (dictOfList (fun c => c.guid) a.components) g = none) :
    (⟨g, c.entity_type, none⟩ : ChangeRecord) ∈ storeyAdds a b := by
  unfold storeyAdds
  refine List.mem_append_right _
    (List.mem_flatMap.2 ⟨(g, c), mem_of_dictGet h1, ?_⟩)
  simp [h2]

/-! ## Claims -/

/-- Claim C3: comparing any project tree against itself yields an empty
    report — no additions, no deletions, no modifications. -/
theorem claim_C3_self_compare_empty (p : Project) :
    Project.check_import p p emptyReport = emptyReport := by
  rw [project_records, projectDels_self, projectAdds_self]
  rfl

/-- Claim C1, counterexample: with `projP1` (guid "P1", one site "S1") versus
    `projP2` (guid "P2", no sites), the guid mismatch at the root does *not*
    leave exactly one deletion: the site reconciliation still runs and also
    records the site "S1" beneath the mismatched root. -/
theorem claim_C1_counterexample :
    (Project.check_import projP1 projP2 emptyReport).deletions
        = [⟨some "P1", "IfcProject", none⟩, ⟨some "S1", "IfcProject", none⟩]
      ∧ (Project.check_import projP1 projP2 emptyReport).deletions.length ≠ 1 := by
  constructor
  · rfl
  · decide

/-- Claim C1, amended: when the root identities differ the diff emits one
    deletion for the original's guid and one addition for the candidate's
    guid (both carrying the original's entity type), but it does not stop:
    comparison then proceeds into the children exactly as it would had the
    identities and names matched. -/
theorem claim_C1_amended (p q : Project) (r : ComparisonReport)
    (hg : p.base.guid ≠ q.base.guid) :
    Project.check_import p q r
      = Project.check_import
          ⟨{ p.base with guid := q.base.guid, name := q.base.name }, p.sites⟩ q
          ((r.add_deletion p.base.guid p.base.entity_type none).add_addition
            q.base.guid p.base.entity_type none) := by
  rw [project_records, project_records]
  simp only [projectAdds, projectDels, upperAdds, upperDels, compAdds, compDels,
    ComparisonReport.add_addition, ComparisonReport.add_deletion]
  simp [hg]

/-- Claim C1, witness for the amended theorem at `projP1` / `projP2`. -/
theorem claim_C1_witness :
    projP1.base.guid ≠ projP2.base.guid
      ∧ Project.check_import projP1 projP2 emptyReport
          = Project.check_import
              ⟨{ projP1.base with
                  guid := projP2.base.guid,
                  name := projP2.base.name }, projP1.sites⟩ projP2
              ((emptyReport.add_deletion projP1.base.guid projP1.base.entity_type
                none).add_addition projP2.base.guid projP1.base.entity_type none) :=
  ⟨by decide, claim_C1_amended projP1 projP2 emptyReport (by decide)⟩

/-- Claim C2 (code behaviour at the failing input): two storeys whose single
    walls share guid "G1" and name "Wall-A" but carry structurally different
    property sets (one has a nested property set the other lacks) compare as
    equal — the report stays empty, no modification is recorded.  The claim
    (and spec §4.4) instead requires a modification pair for "G1". -/
theorem claim_C2_code_result :
    Storey.check_import (storeyWithWall wallPlain) (storeyWithWall wallNested)
        emptyReport = emptyReport
      ∧ wallPlain.psets ≠ wallNested.psets := by
  constructor
  · rfl
  · intro h
    simp [wallPlain, wallNested, psetPlain, psetNested] at h

/-- Claim C5: at every level at which two identity-paired nodes can differ
    in display name, the diff records the modification as a deletion/addition
    pair sharing that identity, and recursion is not stopped.  For Project,
    Site, Building and Storey nodes the comparison proceeds into the children
    exactly as it would had the names matched (the pair is merely prepended);
    for paired leaf components inside a storey the pair (with its
    `"Name : ..."` messages) is emitted into the report. -/
theorem claim_C5_name_modification :
    (∀ (p q : Project) (r : ComparisonReport), p.base.guid = q.base.guid →
      p.base.name ≠ q.base.name →
      Project.check_import p q r
        = Project.check_import ⟨{ p.base with name := q.base.name }, p.sites⟩ q
            ((r.add_deletion p.base.guid p.base.entity_type none).add_addition
              p.base.guid p.base.entity_type none))
    ∧ (∀ (p q : Site) (r : ComparisonReport), p.base.guid = q.base.guid →
      p.base.name ≠ q.base.name →
      Site.check_import p q r
        = Site.check_import ⟨{ p.base with name := q.base.name }, p.buildings⟩ q
            ((r.add_deletion p.base.guid p.base.entity_type none).add_addition
              p.base.guid p.base.entity_type none))
    ∧ (∀ (p q : Building) (r : ComparisonReport), p.base.guid = q.base.guid →
      p.base.name ≠ q.base.name →
      Building.check_import p q r
        = Building.check_import ⟨{ p.base with name := q.base.name }, p.storeys⟩ q
            ((r.add_deletion p.base.guid p.base.entity_type none).add_addition
              p.base.guid p.base.entity_type none))
    ∧ (∀ (p q : Storey) (r : ComparisonReport), p.base.guid = q.base.guid →
      p.base.name ≠ q.base.name →
      Storey.check_import p q r
        = Storey.check_import ⟨{ p.base with name := q.base.name }, p.components⟩ q
            ((r.add_deletion p.base.guid p.base.entity_type none).add_addition
              p.base.guid p.base.entity_type none))
    ∧ (∀ (a b : Storey) (r : ComparisonReport) (g : Option String)
        (oc c : CompData),
      dictGet (dictOfList (fun c => c.guid) a.components) g = some oc →
      dictGet (dictOfList (fun c => c.guid) b.components) g = some c →
      oc.name ≠ c.name →
      ((⟨g, c.entity_type, some ("Name : " ++ pyStr oc.name)⟩ : ChangeRecord)
          ∈ (Storey.check_import a b r).deletions)
        ∧ ((⟨g, c.entity_type, some ("Name : " ++ pyStr c.name)⟩ : ChangeRecord)
          ∈ (Storey.check_import a b r).additions)) := by
  refine ⟨?_, ?_, ?_, ?_, ?_⟩
  · intro p q r hg hn
    rw [project_records, project_records]
    simp only [projectAdds, projectDels, upperAdds, upperDels, compAdds,
      compDels, ComparisonReport.add_addition, ComparisonReport.add_deletion]
    simp [hg, hn]
  · intro p q r hg hn
    rw [site_records, site_records]
    simp only [siteAdds, siteDels, upperAdds, upperDels, compAdds, compDels,
      ComparisonReport.add_addition, ComparisonReport.add_deletion]
    simp [hg, hn]
  · intro p q r hg hn
    rw [building_records, building_records]
    simp only [buildingAdds, buildingDels, upperAdds, upperDels, compAdds,
      compDels, ComparisonReport.add_addition, ComparisonReport.add_deletion]
    simp [hg, hn]
  · intro p q r hg hn
    rw [storey_records, storey_records]
    simp only [storeyAdds, storeyDels, compAdds, compDels,
      ComparisonReport.add_addition, ComparisonReport.add_deletion]
    simp [hg, hn]
  · intro a b r g oc c h1 h2 hn
    rw [storey_records]
    constructor
    · refine List.mem_append_right _ ?_
      unfold storeyDels
      refine List.mem_append_right _
        (List.mem_flatMap.2 ⟨(g, c), mem_of_dictGet h2, ?_⟩)
      simp [h1, hn]
    · refine List.mem_append_right _ ?_
      unfold storeyAdds
      refine List.mem_append_right _
        (List.mem_flatMap.2 ⟨(g, c), mem_of_dictGet h2, ?_⟩)
      simp [h1, hn]

/-- Claim C5, witness: the Project-level conjunct at `projQ` / `projR`
    (same guid "P1", names "Project" vs "Renamed"), and the leaf-level
    conjunct for the renamed wall "G1" inside two storeys. -/
theorem claim_C5_witness :
    projQ.base.guid = projR.base.guid
      ∧ projQ.base.name ≠ projR.base.name
      ∧ Project.check_import projQ projR emptyReport
          = Project.check_import ⟨{ projQ.base with name := projR.base.name },
              projQ.sites⟩ projR
              ((emptyReport.add_deletion projQ.base.guid projQ.base.entity_type
                none).add_addition projQ.base.guid projQ.base.entity_type none)
      ∧ ((⟨some "G1", "IfcWall", some "Name : Wall-A"⟩ : ChangeRecord)
          ∈ (Storey.check_import (storeyWithWall wallPlain)
              (storeyWithWall wallRenamed) emptyReport).deletions)
      ∧ ((⟨some "G1", "IfcWall", some "Name : Wall-B"⟩ : ChangeRecord)
          ∈ (Storey.check_import (storeyWithWall wallPlain)
              (storeyWithWall wallRenamed) emptyReport).additions) :=
  ⟨rfl, by decide,
    claim_C5_name_modification.1 projQ projR emptyReport rfl (by decide),
    (claim_C5_name_modification.2.2.2.2 (storeyWithWall wallPlain)
      (storeyWithWall wallRenamed) emptyReport (some "G1") wallPlain
      wallRenamed rfl rfl (by decide)).1,
    (claim_C5_name_modification.2.2.2.2 (storeyWithWall wallPlain)
      (storeyWithWall wallRenamed) emptyReport (some "G1") wallPlain
      wallRenamed rfl rfl (by decide)).2⟩

/-- Claim C6: in the identity index built by the comparison
    (`dictOfList`, the `{comp.guid: comp for comp in ...}` comprehension),
    when two or more siblings share an identity the index maps that identity
    to the sibling occurring last in collection order. -/
theorem claim_C6_later_duplicate_wins (l l1 l2 : List CompData) (x : CompData)
    (hsplit : l = l1 ++ x :: l2)
    (_hdup : ∃ w ∈ l1, w.guid = x.guid)
    (hlast : ∀ y ∈ l2, y.guid ≠ x.guid) :
    dictGet (dictOfList (fun c => c.guid) l) x.guid = some x := by
  subst hsplit
  rw [dictGet_dictOfList, List.foldl_append, List.foldl_cons]
  rw [foldl_keep_of_no_key _ _ _ _ hlast]
  simp

/-- Claim C6, witness: `dupFirst` and `dupSecond` share guid "D1";
    the index maps "D1" to `dupSecond`, the later sibling. -/
theorem claim_C6_witness :
    dictGet (dictOfList (fun c => c.guid) [dupFirst, dupSecond, dupOther])
        dupSecond.guid = some dupSecond :=
  claim_C6_later_duplicate_wins [dupFirst, dupSecond, dupOther] [dupFirst]
    [dupOther] dupSecond rfl (by decide) (by decide)

/-- Claim C7 (code behaviour at the failing input): building the tree for a
    project entity "P1" decomposed into one site entity "S1" stores `None` as
    the site's parent — `Site.__init__` passes `parent = None` to the base
    constructor (line 95), so the back-reference to the owning project is
    lost; by contrast a storey's leaf elements do receive the storey as
    parent. -/
theorem claim_C7_site_parent_dropped :
    (buildProject projEnt (some "Project")).sites.map (fun s => s.base.parent)
      = [ParentPtr.null] := by
  rfl

/-- Claim C8, counterexample: `projP1` owns site "S1" whose entity kind is
    "IfcSite", yet when the site is missing from the candidate (`projQ`) the
    deletion record carries the *project's* kind "IfcProject", not the
    missing child's kind. -/
theorem claim_C8_counterexample :
    (Project.check_import projP1 projQ emptyReport).deletions
        = [⟨some "S1", "IfcProject", none⟩]
      ∧ siteS1.base.entity_type = "IfcSite"
      ∧ ("IfcProject" : String) ≠ "IfcSite" := by
  refine ⟨rfl, rfl, by decide⟩

/-- Claim C8, amended: for a child present in only one tree, the emitted
    record carries the child's own entity kind at the Site, Building and
    Storey levels, but at the Project level (sites reconciliation) it carries
    the project's own entity kind. -/
theorem claim_C8_amended :
    (∀ (a b : Site) (g : Option String) (bd : Building),
      dictGet (dictOfList (fun bd => bd.base.guid) a.buildings) g = some bd →
      dictGet (dictOfList (fun bd => bd.base.guid) b.buildings) g = none →
      (⟨g, bd.base.entity_type, none⟩ : ChangeRecord)
        ∈ (Site.check_import a b emptyReport).deletions)
    ∧ (∀ (a b : Site) (g : Option String) (bd : Building),
      dictGet (dictOfList (fun bd => bd.base.guid) b.buildings) g = some bd →
      dictGet (dictOfList (fun bd => bd.base.guid) a.buildings) g = none →
      (⟨g, bd.base.entity_type, none⟩ : ChangeRecord)
        ∈ (Site.check_import a b emptyReport).additions)
    ∧ (∀ (a b : Building) (g : Option String) (s : Storey),
      dictGet (dictOfList (fun s => s.base.guid) a.storeys) g = some s →
      dictGet (dictOfList (fun s => s.base.guid) b.storeys) g = none →
      (⟨g, s.base.entity_type, none⟩ : ChangeRecord)
        ∈ (Building.check_import a b emptyReport).deletions)
    ∧ (∀ (a b : Building) (g : Option String) (s : Storey),
      dictGet (dictOfList (fun s => s.base.guid) b.storeys) g = some s →
      dictGet (dictOfList (fun s => s.base.guid) a.storeys) g = none →
      (⟨g, s.base.entity_type, none⟩ : ChangeRecord)
        ∈ (Building.check_import a b emptyReport).additions)
    ∧ (∀ (a b : Storey) (g : Option String) (c : CompData),
      dictGet (dictOfList (fun c => c.guid) a.components) g = some c →
      dictGet (dictOfList (fun c => c.guid) b.components) g = none →
      (⟨g, c.entity_type, none⟩ : ChangeRecord)
        ∈ (Storey.check_import a b emptyReport).deletions)
    ∧ (∀ (a b : Storey) (g : Option String) (c : CompData),
      dictGet (dictOfList (fun c => c.guid) b.components) g = some c →
      dictGet (dictOfList (fun c => c.guid) a.components) g = none →
      (⟨g, c.entity_type, none⟩ : ChangeRecord)
        ∈ (Storey.check_import a b emptyReport).additions)
    ∧ (∀ (a b : Project) (g : Option String) (s : Site),
      dictGet (dictOfList (fun s => s.base.guid) a.sites) g = some s →
      dictGet (dictOfList (fun s => s.base.guid) b.sites) g = none →
      (⟨g, a.base.entity_type, none⟩ : ChangeRecord)
        ∈ (Project.check_import a b emptyReport).deletions)
    ∧ (∀ (a b : Project) (g : Option String) (s : Site),
      dictGet (dictOfList (fun s => s.base.guid) b.sites) g = some s →
      dictGet (dictOfList (fun s => s.base.guid) a.sites) g = none →
      (⟨g, a.base.entity_type, none⟩ : ChangeRecord)
        ∈ (Project.check_import a b emptyReport).additions) := by
  refine ⟨?_, ?_, ?_, ?_, ?_, ?_, ?_, ?_⟩
  · intro a b g bd h1 h2
    rw [site_records]
    exact List.mem_append_right _
      (mem_upperDels_unpaired _ buildingDels _ a.base a.buildings b.base
        b.buildings g bd h1 h2)
  · intro a b g bd h1 h2
    rw [site_records]
    exact List.mem_append_right _
      (mem_upperAdds_unpaired _ buildingAdds _ a.base a.buildings b.base
        b.buildings g bd h1 h2)
  · intro a b g s h1 h2
    rw [building_records]
    exact List.mem_append_right _
      (mem_upperDels_unpaired _ storeyDels _ a.base a.storeys b.base
        b.storeys g s h1 h2)
  · intro a b g s h1 h2
    rw [building_records]
    exact List.mem_append_right _
      (mem_upperAdds_unpaired _ storeyAdds _ a.base a.storeys b.base
        b.storeys g s h1 h2)
  · intro a b g c h1 h2
    rw [storey_records]
    exact List.mem_append_right _ (mem_storeyDels_unpaired a b g c h1 h2)
  · intro a b g c h1 h2
    rw [storey_records]
    exact List.mem_append_right _ (mem_storeyAdds_unpaired a b g c h1 h2)
  · intro a b g s h1 h2
    rw [project_records]
    exact List.mem_append_right _
      (mem_upperDels_unpaired _ siteDels _ a.base a.sites b.base
        b.sites g s h1 h2)
  · intro a b g s h1 h2
    rw [project_records]
    exact List.mem_append_right _
      (mem_upperAdds_unpaired _ siteAdds _ a.base a.sites b.base
        b.sites g s h1 h2)

/-- Claim C8, witness for the amended theorem: the site "S1" missing from
    `projQ` yields a deletion record carrying the project's entity kind. -/
theorem claim_C8_witness :
    (⟨some "S1", projP1.base.entity_type, none⟩ : ChangeRecord)
      ∈ (Project.check_import projP1 projQ emptyReport).deletions :=
  claim_C8_amended.2.2.2.2.2.2.1 projP1 projQ (some "S1") siteS1 rfl rfl

/-- Claim C10: an element whose type tag is "IfcDistributionElement" yields
    no component at all — the tag is in `Storey.ALLOWED_TYPES`, but
    `globals().get` finds no class of that name (the class is spelled
    `IfcDistribution_Element`), so the element is silently excluded. -/
theorem claim_C10_distribution_element_dropped (re : EntityData)
    (p : ParentPtr) (h : re.ifc_type = "IfcDistributionElement") :
    storeyElementComponents p re = []
      ∧ "IfcDistributionElement" ∈ Storey.ALLOWED_TYPES
      ∧ globals_get "IfcDistributionElement" = false := by
  refine ⟨?_, by decide, by decide⟩
  unfold storeyElementComponents EntityData.is_a
  rw [h]
  rw [List.filterMap_eq_nil_iff]
  intro ct hct
  fin_cases hct <;> rfl

/-- Claim C10, witness at the concrete entity `distribEnt`. -/
theorem claim_C10_witness :
    distribEnt.ifc_type = "IfcDistributionElement"
      ∧ storeyElementComponents ParentPtr.null distribEnt = [] :=
  ⟨rfl, (claim_C10_distribution_element_dropped distribEnt ParentPtr.null rfl).1⟩

/-- Claim C4: for trees in pure addition/deletion relation (all paired nodes
    identical, so they differ only by nodes present on one side), swapping
    original and candidate turns the deletion records into the addition
    records and vice versa (as multisets, hence with the same identities). -/
theorem claim_C4_orientation (a b : Project) (h : ProjectPureDiff a b) :
    ((↑(Project.check_import a b emptyReport).deletions : Multiset ChangeRecord)
        = ↑(Project.check_import b a emptyReport).additions)
    ∧ ((↑(Project.check_import a b emptyReport).additions : Multiset ChangeRecord)
        = ↑(Project.check_import b a emptyReport).deletions) := by
  rw [project_records, project_records]
  constructor
  · simpa [emptyReport] using project_swap a b h
  · simpa [emptyReport] using (project_swap b a (ProjectPureDiff_symm h)).symm

/-- Claim C4, witness: `projP1` and `projQ` agree at the root and differ only
    by the extra site "S1". -/
theorem claim_C4_witness :
    ProjectPureDiff projP1 projQ
      ∧ ((↑(Project.check_import projP1 projQ emptyReport).deletions :
            Multiset ChangeRecord)
          = ↑(Project.check_import projQ projP1 emptyReport).additions)
      ∧ ((↑(Project.check_import projP1 projQ emptyReport).additions :
            Multiset ChangeRecord)
          = ↑(Project.check_import projQ projP1 emptyReport).deletions) := by
  have hpure : ProjectPureDiff projP1 projQ := by
    refine ⟨rfl, ?_⟩
    intro g x y hx hy
    simp [projQ, dictOfList, dictGet] at hy
  exact ⟨hpure, (claim_C4_orientation projP1 projQ hpure).1,
    (claim_C4_orientation projP1 projQ hpure).2⟩

/-- Claim C9: when sibling identities are unique throughout both trees,
    reordering children collections anywhere in either tree (the
    `...Reordered` relations) leaves the multisets of deletion and addition
    records unchanged. -/
theorem claim_C9_order_independence (a a2 b b2 : Project)
    (hUa : ProjectUnique a) (hUb : ProjectUnique b)
    (hra : ProjectReordered a a2) (hrb : ProjectReordered b b2) :
    ((↑(Project.check_import a b emptyReport).deletions : Multiset ChangeRecord)
        = ↑(Project.check_import a2 b2 emptyReport).deletions)
    ∧ ((↑(Project.check_import a b emptyReport).additions : Multiset ChangeRecord)
        = ↑(Project.check_import a2 b2 emptyReport).additions) := by
  rw [project_records, project_records]
  have h := project_reorder a a2 b b2 hra hrb hUa hUb
  exact ⟨by simpa [emptyReport] using h.1, by simpa [emptyReport] using h.2⟩

/-- Claim C9, witness: swapping the two sites of `projTwoSites` leaves the
    record multisets of its comparison against `projQ` unchanged. -/
theorem claim_C9_witness :
    ProjectUnique projTwoSites
      ∧ ProjectReordered projTwoSites projTwoSitesSwapped
      ∧ ((↑(Project.check_import projTwoSites projQ emptyReport).deletions :
            Multiset ChangeRecord)
          = ↑(Project.check_import projTwoSitesSwapped projQ emptyReport).deletions)
      ∧ ((↑(Project.check_import projTwoSites projQ emptyReport).additions :
            Multiset ChangeRecord)
          = ↑(Project.check_import projTwoSitesSwapped projQ emptyReport).additions) := by
  have hsiteU : ∀ s ∈ projTwoSites.sites, SiteUnique s := by
    intro s hs
    have hcases : s = siteS1 ∨ s = siteS2 := by
      simpa [projTwoSites] using hs
    rcases hcases with rfl | rfl
    · exact ⟨by decide, by intro bd hbd; simp [siteS1] at hbd⟩
    · exact ⟨by decide, by intro bd hbd; simp [siteS2] at hbd⟩
  have hUa : ProjectUnique projTwoSites := ⟨by decide, hsiteU⟩
  have hUb : ProjectUnique projQ := ⟨by decide, by intro s hs; simp [projQ] at hs⟩
  have hra : ProjectReordered projTwoSites projTwoSitesSwapped := by
    refine ⟨rfl, ⟨[siteS1, siteS2], ?_, ?_⟩⟩
    · exact List.forall₂_same.mpr fun s _ => SiteReordered_refl s
    · exact List.Perm.swap siteS2 siteS1 []
  have hrb : ProjectReordered projQ projQ := ProjectReordered_refl projQ
  have h := claim_C9_order_independence projTwoSites projTwoSitesSwapped
    projQ projQ hUa hUb hra hrb
  exact ⟨hUa, hra, h.1, h.2⟩

end IfcImport
